import Mathlib

/-!
# AVR demos: wear-leveling record store and LED bar-graph

A shallow embedding of

* `eeprom_wear_leveling/eeprom_wear_level_test.cpp` (`FakeEEPROM`, `RecordStore`),
* `bar-graph/leds.c` (`is_prime2`, `print_binary`, `cylon`),
* `max7219/max7219.cpp` (`MAX7219`),
* `timers/timers.h` (`timer2`),

followed by theorems about the embedded code.

Machine integers are natural numbers; every store into a `uint8_t`, `uint16_t`
or `uint32_t` variable is followed by an explicit `% 2^w`.  Loops are
structural recursions on a fuel argument and return `none` when the fuel runs
out, so a loop that never exits is visible as `none`.
-/

namespace wear_leveling

/-! ## Definitions: the EEPROM mock -/

/-- Source constant `hardware_eeprom_size`. -/
def hardware_eeprom_size : Nat := 512

/-- Source `struct Record`: one `uint32_t` field. -/
structure Record where
  last_prime : Nat
deriving DecidableEq

/-- The object representation of a `Record` on a little-endian host: the four
bytes of `last_prime`, lowest address first. -/
def Record.bytes (r : Record) : List Nat :=
  [r.last_prime % 256, r.last_prime / 256 % 256,
   r.last_prime / 65536 % 256, r.last_prime / 16777216 % 256]

/-- Source `class FakeEEPROM`: the only state is the backing file behind `fp`,
kept here as the list of its bytes. -/
structure FakeEEPROM where
  file : List Nat
deriving DecidableEq

/-- Source `FakeEEPROM::FakeEEPROM()`: a fresh file ("w+") receiving
`hardware_eeprom_size` bytes of `0xff`. -/
def FakeEEPROM.new : FakeEEPROM :=
  ⟨List.replicate hardware_eeprom_size 0xff⟩

/-- Source `FakeEEPROM::write`: `fseek(fp, address, SEEK_SET); fputc(value, fp)`.
`fputc` stores its argument converted to `unsigned char`.  Inside the file one
byte is replaced; at or past the end the gap is zero-filled and the byte
appended. -/
def FakeEEPROM.write (e : FakeEEPROM) (address value : Nat) : FakeEEPROM :=
  if address < e.file.length then
    ⟨e.file.set address (value % 256)⟩
  else
    ⟨e.file ++ List.replicate (address - e.file.length) 0 ++ [value % 256]⟩

/-- Source `FakeEEPROM::read`: `fseek(fp, address, SEEK_SET); return fgetc(fp)`.
Past the end `fgetc` gives `EOF` (-1), which the `uint8_t` return type turns
into 255. -/
def FakeEEPROM.read (e : FakeEEPROM) (address : Nat) : Nat :=
  e.file.getD address 255

/-- The EEPROM together with a ghost journal of the `eeprom.write` calls made
so far, oldest first, each as `(address, value)`. -/
structure Bus where
  eeprom : FakeEEPROM
  writes : List (Nat × Nat)
deriving DecidableEq

/-- A call `eeprom.write(address, value)` made by the record store. -/
def Bus.write (b : Bus) (address value : Nat) : Bus :=
  ⟨b.eeprom.write address value, b.writes ++ [(address, value)]⟩

/-- A freshly constructed EEPROM on which nothing was written yet. -/
def Bus.fresh : Bus := ⟨FakeEEPROM.new, []⟩

/-! ## Definitions: the record store -/

/-- Source `class RecordStore`.  `record` is the value currently held by the
referenced caller's `Record`; the three counters are `uint8_t`. -/
structure RecordStore where
  record : Record
  current_index : Nat
  num_records : Nat
  record_size : Nat
deriving DecidableEq

/-- Source `RecordStore::RecordStore`, with `sizeof(record)` as a parameter
(`sizeof_record = 4` for the shipped `Record`).  Both results are stored into
`uint8_t` fields. -/
def RecordStore.new (record : Record) (sizeof_record : Nat) : RecordStore :=
  let record_size := sizeof_record % 256
  { record := record
    current_index := 0
    record_size := record_size
    num_records := ((hardware_eeprom_size - 1) / (record_size + 1)) % 256 }

/-- The `for` loop of `RecordStore::update_status`:
`for (address = start; address < end; ++address) { write; ++test_value; }`
with `uint16_t address` and `uint8_t test_value`. -/
def update_status_loop : Nat → Nat → Nat → Nat → Bus → Option Bus
  | 0, _, _, _, _ => none
  | fuel + 1, end_, address, test_value, b =>
    if address < end_ then
      update_status_loop fuel end_ ((address + 1) % 65536) ((test_value + 1) % 256)
        (b.write address test_value)
    else
      some b

/-- Source `RecordStore::update_status`.  The fuel is the number of `uint16_t`
values, more than a loop over increasing addresses can use. -/
def RecordStore.update_status (s : RecordStore) (b : Bus) : Option Bus :=
  let start := 1
  let end_ := (s.num_records + 1) % 65536
  let test_value := 1
  update_status_loop 65536 end_ start test_value b

/-- The inner `for` loop of `RecordStore::update_record`:
`for (i = 0; i < record_size; ++i) { write(address, test_value); ++address; }`
with `uint8_t i` and `uint16_t address`.  Returns the advanced address. -/
def update_record_inner : Nat → Nat → Nat → Nat → Nat → Bus → Option (Nat × Bus)
  | 0, _, _, _, _, _ => none
  | fuel + 1, record_size, i, address, test_value, b =>
    if i < record_size then
      update_record_inner fuel record_size ((i + 1) % 256) ((address + 1) % 65536)
        test_value (b.write address test_value)
    else
      some (address, b)

/-- The `while (address < end)` loop of `RecordStore::update_record`. -/
def update_record_outer : Nat → Nat → Nat → Nat → Nat → Bus → Option Bus
  | 0, _, _, _, _, _ => none
  | fuel + 1, record_size, end_, address, test_value, b =>
    if address < end_ then
      match update_record_inner 256 record_size 0 address test_value b with
      | none => none
      | some (address1, b1) =>
        update_record_outer fuel record_size end_ address1 ((test_value + 1) % 256) b1
    else
      some b

/-- Source `RecordStore::update_record`.  With `record_size = 0` and
`start < end` the `while` loop would never exit; the model then runs out of
fuel and returns `none`. -/
def RecordStore.update_record (s : RecordStore) (b : Bus) : Option Bus :=
  let start := (s.num_records + 1) % 65536
  let end_ := (start + s.record_size * s.num_records) % 65536
  let test_value := 1
  update_record_outer 65536 s.record_size end_ start test_value b

/-- Source `RecordStore::save`: `update_status(); update_record();`.  No member
of the store is assigned, so the store comes back as it was. -/
def RecordStore.save (s : RecordStore) (b : Bus) : Option (RecordStore × Bus) :=
  match s.update_status b with
  | none => none
  | some b1 =>
    match s.update_record b1 with
    | none => none
    | some b2 => some (s, b2)

/-- The call `save()` repeated `k` times. -/
def save_times : Nat → RecordStore → Bus → Option (RecordStore × Bus)
  | 0, s, b => some (s, b)
  | k + 1, s, b =>
    match s.save b with
    | none => none
    | some (s1, b1) => save_times k s1 b1

/-- The caller assigns to the `Record` the store refers to; the store sees the
new value, its own members are untouched. -/
def RecordStore.set_record (s : RecordStore) (r : Record) : RecordStore :=
  { s with record := r }

/-- Source `main`: construct the EEPROM and the store for the shipped 4-byte
`Record` holding 999983, `save()`, set `record.last_prime = 97` (the store
refers to the caller's record), `save()` again.  Returns the bus after the
first `save()` and the store and bus after the second. -/
def main : Option (Bus × RecordStore × Bus) :=
  let record : Record := ⟨999983⟩
  let eeprom := Bus.fresh
  let store := RecordStore.new record 4
  match store.save eeprom with
  | none => none
  | some (store1, eeprom1) =>
    let store1 := store1.set_record ⟨97⟩
    match store1.save eeprom1 with
    | none => none
    | some (store2, eeprom2) => some (eeprom1, store2, eeprom2)

/-! ## Definitions: vocabulary of the properties -/

/-- Issue a list of `eeprom.write` calls in order. -/
def Bus.writeAll (b : Bus) (ws : List (Nat × Nat)) : Bus :=
  ws.foldl (fun acc w => acc.write w.1 w.2) b

/-- Perform a list of writes on the bare EEPROM, in order. -/
def FakeEEPROM.writeAll (e : FakeEEPROM) (ws : List (Nat × Nat)) : FakeEEPROM :=
  ws.foldl (fun acc w => acc.write w.1 w.2) e

/-- The writes of one `update_status()` in closed form: the `k`-th goes to
address `1 + k` with value `1 + k`. -/
def status_writes (s : RecordStore) : List (Nat × Nat) :=
  (List.range s.num_records).map (fun k => (1 + k, (1 + k) % 256))

/-- The writes of one `update_record()` in closed form: the `t`-th goes to
address `num_records + 1 + t` with value `1 + t / record_size`. -/
def record_writes (s : RecordStore) : List (Nat × Nat) :=
  (List.range (s.record_size * s.num_records)).map
    (fun t => (s.num_records + 1 + t, (1 + t / s.record_size) % 256))

/-- The writes of one `save()` in closed form. -/
def save_writes (s : RecordStore) : List (Nat × Nat) :=
  status_writes s ++ record_writes s

/-- The writes of `k` consecutive `save()` calls in closed form. -/
def save_writes_times : Nat → RecordStore → List (Nat × Nat)
  | 0, _ => []
  | k + 1, s => save_writes s ++ save_writes_times k s

/-- The value of the last write in `ws` whose address is `a`, if there is one. -/
def last_write : List (Nat × Nat) → Nat → Option Nat
  | [], _ => none
  | w :: ws, a =>
    match last_write ws a with
    | some v => some v
    | none => if w.1 = a then some w.2 else none

/-- How many writes of the journal `ws` went to address `a`. -/
def write_count (ws : List (Nat × Nat)) (a : Nat) : Nat :=
  (ws.map Prod.fst).count a

/-- The payload region of slot `i` in the split layout, as read back from the
device: addresses `[1 + M + i*R, 1 + M + (i+1)*R)`. -/
def slot_payload (s : RecordStore) (e : FakeEEPROM) (i : Nat) : List Nat :=
  (List.range s.record_size).map
    (fun j => e.read (1 + s.num_records + i * s.record_size + j))

/-- Status addresses of a store: `1 .. num_records`. -/
def is_status_address (s : RecordStore) (a : Nat) : Prop :=
  1 ≤ a ∧ a ≤ s.num_records

/-- Payload addresses of a store:
`num_records + 1 .. num_records + record_size * num_records`. -/
def is_payload_address (s : RecordStore) (a : Nat) : Prop :=
  s.num_records + 1 ≤ a ∧ a ≤ s.num_records + s.record_size * s.num_records

/-- Write order "payload first": no write to a status address is followed by a
later write to a payload address. -/
def payload_before_status (s : RecordStore) (ws : List (Nat × Nat)) : Prop :=
  ∀ (i j : Nat) (wi wj : Nat × Nat), i < j → ws[i]? = some wi → ws[j]? = some wj →
    ¬ (is_status_address s wi.1 ∧ is_payload_address s wj.1)

/-- Write order "status first": no write to a payload address is followed by a
later write to a status address. -/
def status_before_payload (s : RecordStore) (ws : List (Nat × Nat)) : Prop :=
  ∀ (i j : Nat) (wi wj : Nat × Nat), i < j → ws[i]? = some wi → ws[j]? = some wj →
    ¬ (is_payload_address s wi.1 ∧ is_status_address s wj.1)

end wear_leveling

/-! ## Definitions: `bar-graph/leds.c` -/

namespace leds

/-- The `while ((i * i) <= n)` loop of `is_prime2`, on `uint32_t` (`prime_t`)
variables `i` and `w`.  `n % i` is only evaluated here; a zero `i` would be a
division by zero in C. -/
def is_prime2_loop : Nat → Nat → Nat → Nat → Option Nat
  | 0, _, _, _ => none
  | fuel + 1, n, i, w =>
    if (i * i) % 4294967296 ≤ n then
      if n % i = 0 then
        some 0
      else
        is_prime2_loop fuel n ((i + w) % 4294967296) ((6 + 4294967296 - w) % 4294967296)
    else
      some 1

/-- Source `is_prime2`.  The loop gets `n + 1` units of fuel: `i` starts at 5
and grows in every iteration, so the loop condition fails before they are
used up (shown in `is_prime2_loop_spec`). -/
def is_prime2 (n : Nat) : Option Nat :=
  if n = 2 ∨ n = 3 then
    some 1
  else if n % 2 = 0 ∨ n % 3 = 0 then
    some 0
  else
    is_prime2_loop (n + 1) n 5 2

end leds

/-! ## Definitions: 8-bit register updates -/

namespace avr

/-- The C statement `x |= m` on a `uint8_t` register `x`. -/
def or_assign (x m : Nat) : Nat :=
  (x ||| m) % 256

/-- The C statement `x &= ~m` on a `uint8_t` register `x` with an `int` mask
`0 ≤ m < 2^15`: on the 16-bit `int` of the AVR the bit pattern of `~m` is
`65535 - m`; the result is stored back into 8 bits. -/
def and_not_assign (x m : Nat) : Nat :=
  (x &&& (65535 - m)) % 256

end avr

/-! ## Definitions: `bar-graph/leds.c`, the LED string -/

namespace leds

/-- The I/O ports the LED string is wired to (`PORTB`/`DDRB`, ...). -/
inductive Port where
  | B
  | C
  | D
deriving DecidableEq

/-- Source `struct led_pin`; `port` and `ddr` are kept as the port letter. -/
structure led_pin where
  port : Port
  ddr : Port
  pin : Nat
deriving DecidableEq

/-- Source `#define num_leds 18`. -/
def num_leds : Nat := 18

/-- Source table `leds[num_leds]`, in order of display. -/
def leds : List led_pin :=
  [⟨.B, .B, 4⟩, ⟨.B, .B, 3⟩, ⟨.B, .B, 2⟩, ⟨.D, .D, 2⟩, ⟨.D, .D, 3⟩, ⟨.D, .D, 4⟩,
   ⟨.B, .B, 6⟩, ⟨.C, .C, 5⟩, ⟨.C, .C, 4⟩, ⟨.C, .C, 3⟩, ⟨.C, .C, 2⟩, ⟨.C, .C, 1⟩,
   ⟨.C, .C, 0⟩, ⟨.B, .B, 7⟩, ⟨.D, .D, 5⟩, ⟨.D, .D, 6⟩, ⟨.D, .D, 7⟩, ⟨.B, .B, 0⟩]

/-- The contents of the output registers `PORTB`, `PORTC` and `PORTD`. -/
structure Ports where
  PORTB : Nat
  PORTC : Nat
  PORTD : Nat
deriving DecidableEq

/-- Read `*port`. -/
def Ports.get (s : Ports) : Port → Nat
  | .B => s.PORTB
  | .C => s.PORTC
  | .D => s.PORTD

/-- Store into `*port`. -/
def Ports.set (s : Ports) (p : Port) (v : Nat) : Ports :=
  match p with
  | .B => { s with PORTB := v }
  | .C => { s with PORTC := v }
  | .D => { s with PORTD := v }

/-- Source `led_on`: `*port |= (1<<pin)` for `leds[number]`.  An index outside
the table is an out-of-bounds read in C; the model returns `none`. -/
def led_on (number : Nat) (s : Ports) : Option Ports :=
  match leds[number]? with
  | none => none
  | some l => some (s.set l.port (avr.or_assign (s.get l.port) (1 <<< l.pin)))

/-- Source `led_off`: `*port &= ~(1<<pin)` for `leds[number]`. -/
def led_off (number : Nat) (s : Ports) : Option Ports :=
  match leds[number]? with
  | none => none
  | some l => some (s.set l.port (avr.and_not_assign (s.get l.port) (1 <<< l.pin)))

/-- The `for` loop of `print_binary`, with `uint8_t i` and `uint8_t bit`. -/
def print_binary_loop : Nat → Nat → Nat → Ports → Option Ports
  | 0, _, _, _ => none
  | fuel + 1, number, i, s =>
    if i < num_leds then
      let bit := ((number >>> i) &&& 1) % 256
      match (if bit ≠ 0 then led_on i s else led_off i s) with
      | none => none
      | some s1 => print_binary_loop fuel number ((i + 1) % 256) s1
    else
      some s

/-- Source `print_binary`.  The fuel is the number of `uint8_t` values. -/
def print_binary (number : Nat) (s : Ports) : Option Ports :=
  print_binary_loop 256 number 0 s

/-- What one iteration of `print_binary` does to the ports when LED `i` exists:
the port bit of LED `i` becomes `v`. -/
def write_led (s : Ports) (l : led_pin) (v : Bool) : Ports :=
  if v then s.set l.port (avr.or_assign (s.get l.port) (1 <<< l.pin))
  else s.set l.port (avr.and_not_assign (s.get l.port) (1 <<< l.pin))

/-- The ports after `print_binary` has handled the LEDs `ls`, the first of
which has index `i`, in closed form. -/
def paint (number : Nat) : List led_pin → Nat → Ports → Ports
  | [], _, s => s
  | l :: ls, i, s => paint number ls (i + 1) (write_led s l (number.testBit i))

/-- What the program asks of the LED string, in program order: the calls
`led_on(i)`, `led_off(i)` and `_delay_ms(ms)`. -/
inductive Event where
  | on (i : Nat)
  | off (i : Nat)
  | delay (ms : Nat)
deriving DecidableEq

/-- The ports together with a ghost journal of the calls made so far, oldest
first. -/
structure Strip where
  ports : Ports
  events : List Event

/-- A call `led_on(i)`. -/
def Strip.led_on (i : Nat) (s : Strip) : Option Strip :=
  match leds.led_on i s.ports with
  | none => none
  | some p => some ⟨p, s.events ++ [Event.on i]⟩

/-- A call `led_off(i)`. -/
def Strip.led_off (i : Nat) (s : Strip) : Option Strip :=
  match leds.led_off i s.ports with
  | none => none
  | some p => some ⟨p, s.events ++ [Event.off i]⟩

end leds

/-! ## Definitions: `common.h` and `max7219/max7219.cpp` -/

namespace max7219

/-- Macro `bit_clear(value, bit)`: `(value) &= ~(1 << bit)`. -/
def bit_clear (value bit : Nat) : Nat :=
  avr.and_not_assign value (1 <<< bit)

/-- Macro `bit_get(value, bit)`: `(value) & (1 << (bit))`. -/
def bit_get (value bit : Nat) : Nat :=
  value &&& (1 <<< bit)

/-- Macro `bit_set(value, bit)`: `(value) |= (1 << bit)`. -/
def bit_set (value bit : Nat) : Nat :=
  avr.or_assign value (1 <<< bit)

/-- Macro `bit_write(v, bit, out)`: `out ? bit_set(v, bit) : bit_clear(v, bit)`. -/
def bit_write (v bit out : Nat) : Nat :=
  if out ≠ 0 then bit_set v bit else bit_clear v bit

/-- Source `class MAX7219`: the three pin numbers. -/
structure MAX7219 where
  mosi : Nat
  clock : Nat
  chip_select : Nat
deriving DecidableEq

/-- The registers `DDR` (`DDRB`) and `PORT` (`PORTB`), with a ghost journal of
the `transmit(address, body)` calls completed so far, oldest first. -/
structure Pins where
  DDR : Nat
  PORT : Nat
  sent : List (Nat × Nat)
deriving DecidableEq

/-- Source constructor `MAX7219::MAX7219`. -/
def MAX7219.new (mosi clock chip_select : Nat) (st : Pins) : MAX7219 × Pins :=
  let ddr := avr.or_assign st.DDR (((1 <<< mosi) ||| (1 <<< chip_select)) ||| (1 <<< clock))
  let port := avr.or_assign st.PORT (1 <<< chip_select)
  (⟨mosi % 256, clock % 256, chip_select % 256⟩, { st with DDR := ddr, PORT := port })

/-- The inner loop of `transmit`: `for (uint8_t bit=7; bit<255; --bit)`, which
ends when `bit` wraps from 0 to 255.  Returns `PORT`. -/
def transmit_bits : Nat → MAX7219 → Nat → Nat → Nat → Option Nat
  | 0, _, _, _, _ => none
  | fuel + 1, d, byte, bit, port =>
    if bit < 255 then
      let port1 := bit_clear port d.clock
      let port2 := bit_write port1 d.mosi (bit_get byte bit)
      let port3 := bit_set port2 d.clock
      transmit_bits fuel d byte ((bit + 255) % 256) port3
    else
      some port

/-- The outer loop of `transmit`: `for (uint8_t i=0; i<2; ++i)` over
`buffer`. -/
def transmit_bytes : Nat → MAX7219 → List Nat → Nat → Nat → Option Nat
  | 0, _, _, _, _ => none
  | fuel + 1, d, buffer, i, port =>
    if i < 2 then
      match buffer[i]? with
      | none => none
      | some byte =>
        match transmit_bits 256 d byte 7 port with
        | none => none
        | some port1 => transmit_bytes fuel d buffer ((i + 1) % 256) port1
    else
      some port

/-- Source `MAX7219::transmit`: chip select low, sixteen bits shifted out most
significant first, chip select high. -/
def MAX7219.transmit (d : MAX7219) (address body : Nat) (st : Pins) : Option Pins :=
  let buffer := [address, body]
  let port := bit_clear st.PORT d.chip_select
  match transmit_bytes 256 d buffer 0 port with
  | none => none
  | some port1 =>
    some { st with PORT := bit_set port1 d.chip_select, sent := st.sent ++ [(address, body)] }

/-- Source `MAX7219::set_brightness`. -/
def MAX7219.set_brightness (d : MAX7219) (brightness : Nat) (st : Pins) : Option Pins :=
  let brightness1 := if brightness > 15 then 15 else brightness
  d.transmit 0x0a brightness1 st

/-- Source `MAX7219::use_decode_mode`. -/
def MAX7219.use_decode_mode (d : MAX7219) (do_decoding : Bool) (st : Pins) : Option Pins :=
  if do_decoding then d.transmit 0x09 0xff st else d.transmit 0x09 0x00 st

/-- Source `MAX7219::set_digit`. -/
def MAX7219.set_digit (d : MAX7219) (digit data : Nat) (st : Pins) : Option Pins :=
  let digit1 := if digit > 7 then 7 else digit
  d.transmit ((digit1 + 1) % 256) data st

/-- Source `MAX7219::set_scan_limit`: "Number of digits to enable". -/
def MAX7219.set_scan_limit (d : MAX7219) (limit : Nat) (st : Pins) : Option Pins :=
  let limit1 := if limit < 1 then 1 else limit
  let limit2 := if limit1 > 8 then 8 else limit1
  d.transmit 0x0b ((limit2 - 1) % 256) st

/-- Source `MAX7219::set_shutdown`. -/
def MAX7219.set_shutdown (d : MAX7219) (do_shutdown : Bool) (st : Pins) : Option Pins :=
  if do_shutdown then d.transmit 0x0c 0x00 st else d.transmit 0x0c 0x01 st

/-- Source `MAX7219::set_test_mode`. -/
def MAX7219.set_test_mode (d : MAX7219) (do_led_test : Bool) (st : Pins) : Option Pins :=
  if do_led_test then d.transmit 0x0f 0x01 st else d.transmit 0x0f 0x00 st

/-- Source `MAX7219::init`: "All digits are enabled, decode-mode is on,
brightness is set, device is enabled." -/
def MAX7219.init (d : MAX7219) (brightness : Nat) (st : Pins) : Option Pins :=
  match d.set_scan_limit 7 st with
  | none => none
  | some st1 =>
    match d.use_decode_mode true st1 with
    | none => none
    | some st2 =>
      match d.set_brightness brightness st2 with
      | none => none
      | some st3 => d.set_shutdown false st3

end max7219

/-! ## Definitions: `timers/timers.h` -/

namespace timers

/-- The bit positions `timers.h` takes from `<avr/io.h>`, which is not part of
the sources: they are parameters of the model. -/
structure Io where
  WGM20 : Nat
  WGM21 : Nat
  WGM22 : Nat
  CS20 : Nat
  CS21 : Nat
  CS22 : Nat
  COM2A0 : Nat
  COM2A1 : Nat
  COM2B0 : Nat
  COM2B1 : Nat
deriving DecidableEq

/-- The bit positions of the ATmega328P data sheet, as a sample for `Io`. -/
def Io.atmega328p : Io :=
  { WGM20 := 0, WGM21 := 1, WGM22 := 3, CS20 := 0, CS21 := 1, CS22 := 2,
    COM2A0 := 6, COM2A1 := 7, COM2B0 := 4, COM2B1 := 5 }

/-- Source `enum class Clock : byte`. -/
inductive Clock where
  | Stopped
  | Divide_by_1
  | Divide_by_8
  | Divide_by_32
  | Divide_by_64
  | Divide_by_128
  | Divide_by_256
  | Divide_by_1024
deriving DecidableEq

/-- The enumerator values of `Clock`, that is `static_cast<byte>(prescaler)`. -/
def Clock.toByte (io : Io) : Clock → Nat
  | .Stopped => 0x00
  | .Divide_by_1 => (1 <<< io.CS20) % 256
  | .Divide_by_8 => (1 <<< io.CS21) % 256
  | .Divide_by_32 => ((1 <<< io.CS20) ||| (1 <<< io.CS21)) % 256
  | .Divide_by_64 => (1 <<< io.CS22) % 256
  | .Divide_by_128 => ((1 <<< io.CS20) ||| (1 <<< io.CS22)) % 256
  | .Divide_by_256 => ((1 <<< io.CS21) ||| (1 <<< io.CS22)) % 256
  | .Divide_by_1024 => (((1 <<< io.CS20) ||| (1 <<< io.CS21)) ||| (1 <<< io.CS22)) % 256

/-- The clock-select bits `(CS22, CS21, CS20)` each `Clock` enumerator names. -/
def Clock.select : Clock → Bool × Bool × Bool
  | .Stopped => (false, false, false)
  | .Divide_by_1 => (false, false, true)
  | .Divide_by_8 => (false, true, false)
  | .Divide_by_32 => (false, true, true)
  | .Divide_by_64 => (true, false, false)
  | .Divide_by_128 => (true, false, true)
  | .Divide_by_256 => (true, true, false)
  | .Divide_by_1024 => (true, true, true)

namespace timer2

/-- Source `enum class output_a : byte`. -/
inductive output_a where
  | disconnected
  | toggle
  | non_inverting
  | inverting
deriving DecidableEq

/-- Source `enum class output_b : byte`. -/
inductive output_b where
  | disconnected
  | toggle
  | non_inverting
  | inverting
deriving DecidableEq

/-- The enumerator values of `output_a`. -/
def output_a.toByte (io : Io) : output_a → Nat
  | .disconnected => 0x00
  | .toggle => (1 <<< io.COM2A0) % 256
  | .non_inverting => (1 <<< io.COM2A1) % 256
  | .inverting => ((1 <<< io.COM2A0) ||| (1 <<< io.COM2A1)) % 256

/-- The enumerator values of `output_b`. -/
def output_b.toByte (io : Io) : output_b → Nat
  | .disconnected => 0x00
  | .toggle => (1 <<< io.COM2B0) % 256
  | .non_inverting => (1 <<< io.COM2B1) % 256
  | .inverting => ((1 <<< io.COM2B0) ||| (1 <<< io.COM2B1)) % 256

/-- The bits `(COM2A1, COM2A0)` each `output_a` enumerator names. -/
def output_a.select : output_a → Bool × Bool
  | .disconnected => (false, false)
  | .toggle => (false, true)
  | .non_inverting => (true, false)
  | .inverting => (true, true)

/-- The bits `(COM2B1, COM2B0)` each `output_b` enumerator names. -/
def output_b.select : output_b → Bool × Bool
  | .disconnected => (false, false)
  | .toggle => (false, true)
  | .non_inverting => (true, false)
  | .inverting => (true, true)

/-- The control registers `TCCR2A` and `TCCR2B` of timer 2. -/
structure Regs where
  TCCR2A : Nat
  TCCR2B : Nat
deriving DecidableEq

/-- Source `timer2::set_mode_ctc`. -/
def set_mode_ctc (io : Io) (r : Regs) : Regs :=
  let a1 := avr.and_not_assign r.TCCR2A (1 <<< io.WGM20)
  let a2 := avr.or_assign a1 (1 <<< io.WGM21)
  let b1 := avr.and_not_assign r.TCCR2B (1 <<< io.WGM22)
  { TCCR2A := a2, TCCR2B := b1 }

/-- Source `timer2::set_mode_normal`. -/
def set_mode_normal (io : Io) (r : Regs) : Regs :=
  let a1 := avr.and_not_assign r.TCCR2A ((1 <<< io.WGM20) ||| (1 <<< io.WGM21))
  let b1 := avr.and_not_assign r.TCCR2B (1 <<< io.WGM22)
  { TCCR2A := a1, TCCR2B := b1 }

/-- Source `timer2::set_mode_pwm_fast`. -/
def set_mode_pwm_fast (io : Io) (r : Regs) : Regs :=
  let a1 := avr.or_assign r.TCCR2A ((1 <<< io.WGM20) ||| (1 <<< io.WGM21))
  let b1 := avr.and_not_assign r.TCCR2B (1 <<< io.WGM22)
  { TCCR2A := a1, TCCR2B := b1 }

/-- Source `timer2::set_mode_pwm_faster`. -/
def set_mode_pwm_faster (io : Io) (r : Regs) : Regs :=
  let a1 := avr.or_assign r.TCCR2A ((1 <<< io.WGM20) ||| (1 <<< io.WGM21))
  let b1 := avr.or_assign r.TCCR2B (1 <<< io.WGM22)
  { TCCR2A := a1, TCCR2B := b1 }

/-- Source `timer2::set_mode_pwm_phase_correct`. -/
def set_mode_pwm_phase_correct (io : Io) (r : Regs) : Regs :=
  let a1 := avr.or_assign r.TCCR2A (1 <<< io.WGM20)
  let a2 := avr.and_not_assign a1 (1 <<< io.WGM21)
  let b1 := avr.and_not_assign r.TCCR2B (1 <<< io.WGM22)
  { TCCR2A := a2, TCCR2B := b1 }

/-- Source `timer2::use_outputs`. -/
def use_outputs (io : Io) (a : output_a) (b : output_b) (r : Regs) : Regs :=
  let a1 := avr.and_not_assign r.TCCR2A ((1 <<< io.COM2A0) ||| (1 <<< io.COM2A1))
  let a2 := avr.or_assign a1 (a.toByte io)
  let a3 := avr.and_not_assign a2 ((1 <<< io.COM2B0) ||| (1 <<< io.COM2B1))
  let a4 := avr.or_assign a3 (b.toByte io)
  { r with TCCR2A := a4 }

/-- Source `timer2::use_prescaler`. -/
def use_prescaler (io : Io) (prescaler : Clock) (r : Regs) : Regs :=
  let b1 := avr.and_not_assign r.TCCR2B
    (((1 <<< io.CS20) ||| (1 <<< io.CS21)) ||| (1 <<< io.CS22))
  let b2 := avr.or_assign b1 (prescaler.toByte io)
  { r with TCCR2B := b2 }

/-- The waveform-generation bits `(WGM22, WGM21, WGM20)` of the registers. -/
def wgm (io : Io) (r : Regs) : Bool × Bool × Bool :=
  (r.TCCR2B.testBit io.WGM22, r.TCCR2A.testBit io.WGM21, r.TCCR2A.testBit io.WGM20)

/-- The five mode functions, in the order normal, phase correct, CTC, fast,
faster. -/
def modes (io : Io) : List (Regs → Regs) :=
  [set_mode_normal io, set_mode_pwm_phase_correct io, set_mode_ctc io,
   set_mode_pwm_fast io, set_mode_pwm_faster io]

end timer2

end timers

namespace wear_leveling

/-! ## Lemmas: the journal and the loops -/

theorem Bus.writeAll_nil (b : Bus) : b.writeAll [] = b := rfl

theorem Bus.writeAll_cons (b : Bus) (w : Nat × Nat) (ws : List (Nat × Nat)) :
    b.writeAll (w :: ws) = (b.write w.1 w.2).writeAll ws := rfl

theorem Bus.writeAll_append (b : Bus) (xs ys : List (Nat × Nat)) :
    b.writeAll (xs ++ ys) = (b.writeAll xs).writeAll ys := by
  simp [Bus.writeAll, List.foldl_append]

theorem Bus.writeAll_writes (b : Bus) (ws : List (Nat × Nat)) :
    (b.writeAll ws).writes = b.writes ++ ws := by
  induction ws generalizing b with
  | nil => simp [Bus.writeAll_nil]
  | cons w ws ih => rw [Bus.writeAll_cons, ih]; simp [Bus.write]

theorem Bus.writeAll_eeprom (b : Bus) (ws : List (Nat × Nat)) :
    (b.writeAll ws).eeprom = b.eeprom.writeAll ws := by
  induction ws generalizing b with
  | nil => rfl
  | cons w ws ih =>
    rw [Bus.writeAll_cons, ih]; rfl

theorem update_status_loop_eq (fuel end_ : Nat) (hend : end_ < 65536) :
    ∀ (address test_value : Nat) (b : Bus), address ≤ end_ → end_ - address < fuel →
      test_value < 256 →
      update_status_loop fuel end_ address test_value b =
        some (b.writeAll ((List.range (end_ - address)).map
          (fun k => (address + k, (test_value + k) % 256)))) := by
  induction fuel with
  | zero => intro _ _ _ _ h; omega
  | succ fuel ih =>
    intro address test_value b hle hfuel htv
    unfold update_status_loop
    by_cases hlt : address < end_
    · rw [if_pos hlt, Nat.mod_eq_of_lt (by omega : address + 1 < 65536),
        ih (address + 1) ((test_value + 1) % 256) (b.write address test_value) (by omega)
          (by omega) (Nat.mod_lt _ (by norm_num))]
      have hn : end_ - address = (end_ - (address + 1)) + 1 := by omega
      rw [hn, List.range_succ_eq_map, List.map_cons, Bus.writeAll_cons, List.map_map]
      simp only [Nat.add_zero, Nat.mod_eq_of_lt htv]
      congr 2
      apply List.map_congr_left
      intro k _
      simp only [Function.comp, Nat.succ_eq_add_one]
      rw [Nat.mod_add_mod]
      congr 1
      · omega
      · congr 1; omega
    · rw [if_neg hlt]
      have hn : end_ - address = 0 := by omega
      rw [hn]; rfl

theorem update_record_inner_eq (fuel record_size : Nat) (hrs : record_size < 256) :
    ∀ (i address test_value : Nat) (b : Bus), i ≤ record_size → record_size - i < fuel →
      address + (record_size - i) < 65536 →
      update_record_inner fuel record_size i address test_value b =
        some (address + (record_size - i),
          b.writeAll ((List.range (record_size - i)).map (fun k => (address + k, test_value)))) := by
  induction fuel with
  | zero => intro _ _ _ _ _ h; omega
  | succ fuel ih =>
    intro i address test_value b hle hfuel haddr
    unfold update_record_inner
    by_cases hlt : i < record_size
    · rw [if_pos hlt, Nat.mod_eq_of_lt (by omega : address + 1 < 65536),
        Nat.mod_eq_of_lt (by omega : i + 1 < 256),
        ih (i + 1) (address + 1) test_value (b.write address test_value) (by omega)
          (by omega) (by omega)]
      have hn : record_size - i = (record_size - (i + 1)) + 1 := by omega
      rw [hn, List.range_succ_eq_map, List.map_cons, Bus.writeAll_cons, List.map_map]
      simp only [Nat.add_zero]
      congr 2
      · omega
      · congr 1
        apply List.map_congr_left
        intro k _
        simp only [Function.comp, Nat.succ_eq_add_one]
        congr 1
        omega
    · rw [if_neg hlt]
      have hn : record_size - i = 0 := by omega
      rw [hn]; rfl

theorem update_record_outer_eq (fuel record_size : Nat) (hrs0 : 0 < record_size)
    (hrs : record_size < 256) :
    ∀ (m address test_value : Nat) (b : Bus), m < fuel →
      address + record_size * m < 65536 → test_value < 256 →
      update_record_outer fuel record_size (address + record_size * m) address test_value b =
        some (b.writeAll ((List.range (record_size * m)).map
          (fun t => (address + t, (test_value + t / record_size) % 256)))) := by
  induction fuel with
  | zero => intro _ _ _ _ h; omega
  | succ fuel ih =>
    intro m address test_value b hfuel haddr htv
    unfold update_record_outer
    cases m with
    | zero => simp [Bus.writeAll_nil]
    | succ m =>
      have hmul : record_size * (m + 1) = record_size + record_size * m := by ring
      have hlt : address < address + record_size * (m + 1) := by
        rw [hmul]; omega
      rw [if_pos hlt, update_record_inner_eq 256 record_size hrs 0 address test_value b
        (by omega) (by omega) (by rw [hmul] at haddr; omega)]
      simp only [Nat.sub_zero]
      have hend : address + record_size * (m + 1) = (address + record_size) + record_size * m := by
        rw [hmul]; omega
      rw [hend, ih m (address + record_size) ((test_value + 1) % 256) _ (by omega)
        (by rw [hmul] at haddr; omega) (Nat.mod_lt _ (by norm_num))]
      rw [hmul, List.range_add, List.map_append, Bus.writeAll_append, List.map_map]
      congr 2
      · congr 1
        apply List.map_congr_left
        intro k hk
        rw [List.mem_range] at hk
        rw [Nat.div_eq_of_lt hk, Nat.add_zero, Nat.mod_eq_of_lt htv]
      · apply List.map_congr_left
        intro t _
        simp only [Function.comp]
        rw [Nat.mod_add_mod, Nat.add_div_left _ hrs0]
        congr 1
        · omega
        · congr 1; omega

/-! ## Lemmas: the store operations in closed form -/

theorem RecordStore.update_status_eq (s : RecordStore) (b : Bus) (hM : s.num_records < 256) :
    s.update_status b = some (b.writeAll (status_writes s)) := by
  unfold RecordStore.update_status
  simp only
  rw [Nat.mod_eq_of_lt (by omega : s.num_records + 1 < 65536),
    update_status_loop_eq 65536 (s.num_records + 1) (by omega) 1 1 b (by omega) (by omega)
      (by norm_num)]
  simp [status_writes]

theorem RecordStore.update_record_eq (s : RecordStore) (b : Bus) (hM : s.num_records < 256)
    (hR : s.record_size < 256) :
    s.update_record b = some (b.writeAll (record_writes s)) := by
  have hprod : s.record_size * s.num_records ≤ 255 * 255 := Nat.mul_le_mul (by omega) (by omega)
  unfold RecordStore.update_record
  simp only
  rw [Nat.mod_eq_of_lt (by omega : s.num_records + 1 < 65536),
    Nat.mod_eq_of_lt (by omega : s.num_records + 1 + s.record_size * s.num_records < 65536)]
  rcases Nat.eq_zero_or_pos s.record_size with h0 | hpos
  · simp [record_writes, h0, update_record_outer, Bus.writeAll_nil]
  · rw [update_record_outer_eq 65536 s.record_size hpos hR s.num_records (s.num_records + 1) 1 b
      (by omega) (by omega) (by norm_num)]
    rfl

theorem RecordStore.save_eq (s : RecordStore) (b : Bus) (hM : s.num_records < 256)
    (hR : s.record_size < 256) :
    s.save b = some (s, b.writeAll (save_writes s)) := by
  unfold RecordStore.save
  rw [s.update_status_eq b hM]
  simp only
  rw [s.update_record_eq _ hM hR]
  simp only [save_writes, Bus.writeAll_append]

theorem RecordStore.new_record_size (r : Record) (R : Nat) (hR : R < 256) :
    (RecordStore.new r R).record_size = R := by
  simp [RecordStore.new, Nat.mod_eq_of_lt hR]

theorem RecordStore.new_num_records (r : Record) (R : Nat) (h1 : 1 ≤ R) (hR : R < 256) :
    (RecordStore.new r R).num_records = 511 / (R + 1) := by
  have hlt : 511 / (R + 1) < 256 := by
    rw [Nat.div_lt_iff_lt_mul (by omega)]; omega
  simp [RecordStore.new, hardware_eeprom_size, Nat.mod_eq_of_lt hR, Nat.mod_eq_of_lt hlt]

theorem RecordStore.new_num_records_lt (r : Record) (R : Nat) :
    (RecordStore.new r R).num_records < 256 := by
  simp only [RecordStore.new]
  exact Nat.mod_lt _ (by norm_num)

theorem RecordStore.new_record_size_lt (r : Record) (R : Nat) :
    (RecordStore.new r R).record_size < 256 := by
  simp only [RecordStore.new]
  exact Nat.mod_lt _ (by norm_num)

/-- The slots of a constructed store fit into the device after the reserved
byte: `M * (R + 1) ≤ 511`. -/
theorem RecordStore.new_fits (r : Record) (R : Nat) (h1 : 1 ≤ R) (hR : R < 256) :
    (RecordStore.new r R).num_records
      + (RecordStore.new r R).record_size * (RecordStore.new r R).num_records ≤ 511 := by
  rw [RecordStore.new_num_records r R h1 hR, RecordStore.new_record_size r R hR]
  have h := Nat.div_mul_le_self 511 (R + 1)
  have e : 511 / (R + 1) + R * (511 / (R + 1)) = 511 / (R + 1) * (R + 1) := by ring
  omega

theorem mem_status_writes (s : RecordStore) (w : Nat × Nat) :
    w ∈ status_writes s ↔ ∃ k, k < s.num_records ∧ w = (1 + k, (1 + k) % 256) := by
  simp only [status_writes, List.mem_map, List.mem_range]
  constructor
  · rintro ⟨k, hk, rfl⟩; exact ⟨k, hk, rfl⟩
  · rintro ⟨k, hk, rfl⟩; exact ⟨k, hk, rfl⟩

theorem mem_record_writes (s : RecordStore) (w : Nat × Nat) :
    w ∈ record_writes s ↔ ∃ t, t < s.record_size * s.num_records ∧
      w = (s.num_records + 1 + t, (1 + t / s.record_size) % 256) := by
  simp only [record_writes, List.mem_map, List.mem_range]
  constructor
  · rintro ⟨k, hk, rfl⟩; exact ⟨k, hk, rfl⟩
  · rintro ⟨k, hk, rfl⟩; exact ⟨k, hk, rfl⟩

theorem save_writes_length (s : RecordStore) :
    (save_writes s).length = s.num_records + s.record_size * s.num_records := by
  simp [save_writes, status_writes, record_writes]

/-- The addresses written by one `save()` are `1, 2, 3, ...` in this order. -/
theorem save_writes_addresses (s : RecordStore) :
    (save_writes s).map Prod.fst
      = (List.range (s.num_records + s.record_size * s.num_records)).map (fun k => 1 + k) := by
  simp only [save_writes, status_writes, record_writes, List.map_append, List.map_map,
    List.range_add]
  congr 1
  apply List.map_congr_left
  intro t _
  simp only [Function.comp]
  omega

theorem save_writes_getElem_fst (s : RecordStore) (i : Nat) (w : Nat × Nat)
    (h : (save_writes s)[i]? = some w) : w.1 = 1 + i := by
  have h1 : ((save_writes s).map Prod.fst)[i]? = some w.1 := by
    rw [List.getElem?_map, h]; rfl
  rw [save_writes_addresses, List.getElem?_map] at h1
  cases hr : (List.range (s.num_records + s.record_size * s.num_records))[i]? with
  | none => rw [hr] at h1; simp at h1
  | some k =>
    rw [hr] at h1
    have hk := List.getElem?_eq_some.1 hr
    obtain ⟨hlt, hk⟩ := hk
    rw [List.getElem_range] at hk
    simp at h1
    omega

theorem mem_save_writes_fst (s : RecordStore) (w : Nat × Nat) (h : w ∈ save_writes s) :
    1 ≤ w.1 ∧ w.1 ≤ s.num_records + s.record_size * s.num_records := by
  have h1 : w.1 ∈ (save_writes s).map Prod.fst := List.mem_map_of_mem _ h
  rw [save_writes_addresses] at h1
  simp only [List.mem_map, List.mem_range] at h1
  obtain ⟨k, hk, hk2⟩ := h1
  omega

theorem save_times_eq (k : Nat) (s : RecordStore) (b : Bus) (hM : s.num_records < 256)
    (hR : s.record_size < 256) :
    save_times k s b = some (s, b.writeAll (save_writes_times k s)) := by
  induction k generalizing b with
  | zero => rfl
  | succ k ih =>
    unfold save_times
    rw [s.save_eq b hM hR]
    simp only
    rw [ih, save_writes_times, Bus.writeAll_append]

theorem count_range_succ (n a : Nat) :
    ((List.range n).map (fun k => 1 + k)).count a = if 1 ≤ a ∧ a ≤ n then 1 else 0 := by
  induction n with
  | zero =>
    have h : ¬ (1 ≤ a ∧ a ≤ 0) := by omega
    rw [if_neg h]
    rfl
  | succ n ih =>
    rw [List.range_succ, List.map_append, List.count_append, ih]
    simp only [List.map_cons, List.map_nil, List.count_cons, List.count_nil]
    by_cases h1 : 1 ≤ a ∧ a ≤ n
    · have h2 : ¬ (1 + n = a) := by omega
      have h3 : 1 ≤ a ∧ a ≤ n + 1 := by omega
      simp [h1, h2, h3]
    · by_cases h2 : 1 + n = a
      · have h3 : 1 ≤ a ∧ a ≤ n + 1 := by omega
        rw [if_neg h1, if_pos h3]
        simp [h2]
      · have h3 : ¬ (1 ≤ a ∧ a ≤ n + 1) := by omega
        rw [if_neg h1, if_neg h3]
        simp [h2]

theorem write_count_append (xs ys : List (Nat × Nat)) (a : Nat) :
    write_count (xs ++ ys) a = write_count xs a + write_count ys a := by
  simp [write_count, List.count_append]

theorem write_count_save_writes (s : RecordStore) (a : Nat) (h1 : 1 ≤ a)
    (h2 : a ≤ s.num_records + s.record_size * s.num_records) :
    write_count (save_writes s) a = 1 := by
  unfold write_count
  rw [save_writes_addresses, count_range_succ, if_pos ⟨h1, h2⟩]

theorem write_count_save_writes_times (k : Nat) (s : RecordStore) (a : Nat) (h1 : 1 ≤ a)
    (h2 : a ≤ s.num_records + s.record_size * s.num_records) :
    write_count (save_writes_times k s) a = k := by
  induction k with
  | zero => rfl
  | succ k ih =>
    rw [save_writes_times, write_count_append, ih, write_count_save_writes s a h1 h2]
    omega

/-! ## Lemmas: the EEPROM mock -/

theorem last_write_mem (ws : List (Nat × Nat)) (a v : Nat) (h : last_write ws a = some v) :
    (a, v) ∈ ws := by
  induction ws with
  | nil => simp [last_write] at h
  | cons w ws ih =>
    rw [last_write] at h
    cases hl : last_write ws a with
    | some v1 =>
      rw [hl] at h
      simp only [Option.some.injEq] at h
      subst h
      exact List.mem_cons_of_mem _ (ih hl)
    | none =>
      rw [hl] at h
      simp only at h
      by_cases hw : w.1 = a
      · rw [if_pos hw] at h
        simp only [Option.some.injEq] at h
        subst h; subst hw
        exact List.mem_cons_self _ _
      · rw [if_neg hw] at h
        cases h

theorem last_write_isSome (ws : List (Nat × Nat)) (a v : Nat) (h : (a, v) ∈ ws) :
    ∃ v1, last_write ws a = some v1 := by
  induction ws with
  | nil => cases h
  | cons w ws ih =>
    rw [last_write]
    cases hl : last_write ws a with
    | some v1 => exact ⟨v1, rfl⟩
    | none =>
      rcases List.mem_cons.1 h with heq | hmem
      · subst heq
        exact ⟨v, by simp⟩
      · obtain ⟨v1, hv1⟩ := ih hmem
        rw [hl] at hv1
        cases hv1

theorem last_write_unique (ws : List (Nat × Nat)) (a v : Nat) (h : (a, v) ∈ ws)
    (huniq : ∀ v1, (a, v1) ∈ ws → v1 = v) : last_write ws a = some v := by
  obtain ⟨v1, hv1⟩ := last_write_isSome ws a v h
  rw [hv1, huniq v1 (last_write_mem ws a v1 hv1)]

theorem last_write_none (ws : List (Nat × Nat)) (a : Nat) (h : ∀ w ∈ ws, w.1 ≠ a) :
    last_write ws a = none := by
  cases hl : last_write ws a with
  | none => rfl
  | some v => exact absurd rfl (h _ (last_write_mem ws a v hl))

theorem last_write_append (xs ys : List (Nat × Nat)) (a : Nat) :
    last_write (xs ++ ys) a =
      match last_write ys a with
      | some v => some v
      | none => last_write xs a := by
  induction xs with
  | nil =>
    simp only [List.nil_append]
    cases last_write ys a <;> rfl
  | cons x xs ih =>
    rw [List.cons_append, last_write, ih]
    cases hy : last_write ys a with
    | some v => rfl
    | none => simp only [last_write]

theorem FakeEEPROM.write_length (e : FakeEEPROM) (a v : Nat) (ha : a < e.file.length) :
    (e.write a v).file.length = e.file.length := by
  simp [FakeEEPROM.write, ha]

theorem FakeEEPROM.read_write (e : FakeEEPROM) (a v a1 : Nat) (ha : a < e.file.length) :
    (e.write a v).read a1 = if a = a1 then v % 256 else e.read a1 := by
  unfold FakeEEPROM.write FakeEEPROM.read
  rw [if_pos ha]
  simp only [List.getD_eq_getElem?_getD, List.getElem?_set]
  by_cases h : a = a1
  · subst h; simp [ha]
  · simp [h]

theorem FakeEEPROM.new_length : FakeEEPROM.new.file.length = 512 := by
  unfold FakeEEPROM.new
  rw [List.length_replicate]
  rfl

theorem FakeEEPROM.new_read (a : Nat) : FakeEEPROM.new.read a = 255 := by
  unfold FakeEEPROM.new FakeEEPROM.read
  simp only [List.getD_eq_getElem?_getD, List.getElem?_replicate]
  split <;> rfl

theorem FakeEEPROM.writeAll_step (e : FakeEEPROM) (w : Nat × Nat) (ws : List (Nat × Nat)) :
    e.writeAll (w :: ws) = (e.write w.1 w.2).writeAll ws := rfl

theorem FakeEEPROM.writeAll_length (ws : List (Nat × Nat)) :
    ∀ (e : FakeEEPROM), (∀ w ∈ ws, w.1 < e.file.length) →
      (e.writeAll ws).file.length = e.file.length := by
  induction ws with
  | nil => intro e _; rfl
  | cons w ws ih =>
    intro e h
    have hw : w.1 < e.file.length := h w (List.mem_cons_self _ _)
    rw [FakeEEPROM.writeAll_step, ih, FakeEEPROM.write_length e _ _ hw]
    intro x hx
    rw [FakeEEPROM.write_length e _ _ hw]
    exact h x (List.mem_cons_of_mem _ hx)

theorem FakeEEPROM.read_writeAll (ws : List (Nat × Nat)) :
    ∀ (e : FakeEEPROM), (∀ w ∈ ws, w.1 < e.file.length ∧ w.2 < 256) → ∀ a,
      (e.writeAll ws).read a = (last_write ws a).getD (e.read a) := by
  induction ws with
  | nil => intro e _ a; rfl
  | cons w ws ih =>
    intro e h a
    have hw := h w (List.mem_cons_self _ _)
    rw [FakeEEPROM.writeAll_step, ih, FakeEEPROM.read_write e _ _ _ hw.1, last_write]
    · cases last_write ws a with
      | some v => rfl
      | none =>
        by_cases hwa : w.1 = a
        · simp [hwa, Nat.mod_eq_of_lt hw.2]
        · simp [hwa]
    · intro x hx
      rw [FakeEEPROM.write_length e _ _ hw.1]
      exact h x (List.mem_cons_of_mem _ hx)

/-! ## Theorems -/

/-- C5: on the 512-byte device initialised by the constructor, after any
sequence `ws` of writes of bytes to addresses below 512, `read(a)` returns the
value of the last write whose address is `a` (the write `(a, v)` after which no
write of `ws` addresses `a`), or the erased value `0xFF` if no write of `ws`
addressed `a`; this holds for every `a`, in particular every `a < 512`, and
the device keeps its 512 bytes. -/
theorem FakeEEPROM.read_after_writes (ws : List (Nat × Nat))
    (h : ∀ w ∈ ws, w.1 < hardware_eeprom_size ∧ w.2 < 256) (a : Nat) :
    (∀ pre v post, ws = pre ++ (a, v) :: post → (∀ w ∈ post, w.1 ≠ a) →
        (FakeEEPROM.new.writeAll ws).read a = v) ∧
      ((∀ w ∈ ws, w.1 ≠ a) → (FakeEEPROM.new.writeAll ws).read a = 0xFF) ∧
      (FakeEEPROM.new.writeAll ws).file.length = hardware_eeprom_size := by
  have h1 : ∀ w ∈ ws, w.1 < FakeEEPROM.new.file.length ∧ w.2 < 256 := by
    intro w hw
    rw [FakeEEPROM.new_length]
    exact h w hw
  refine ⟨?_, ?_, ?_⟩
  · intro pre v post hws hpost
    rw [FakeEEPROM.read_writeAll ws _ h1, hws, last_write_append, last_write,
      last_write_none post a hpost]
    simp
  · intro hno
    rw [FakeEEPROM.read_writeAll ws _ h1, last_write_none ws a hno, FakeEEPROM.new_read]
    rfl
  · rw [FakeEEPROM.writeAll_length ws _ (fun w hw => (h1 w hw).1), FakeEEPROM.new_length]
    rfl

/-- Witness of C5: write 7 then 9 at address 3 and 1 at address 5; address 3
reads 9, the never written address 4 reads `0xFF`. -/
theorem FakeEEPROM.read_after_writes_witness :
    (∀ w ∈ [(3, 7), (3, 9), (5, 1)], w.1 < hardware_eeprom_size ∧ w.2 < 256) ∧
      (FakeEEPROM.new.writeAll [(3, 7), (3, 9), (5, 1)]).read 3 = 9 ∧
      (FakeEEPROM.new.writeAll [(3, 7), (3, 9), (5, 1)]).read 4 = 0xFF :=
  ⟨by decide,
    (FakeEEPROM.read_after_writes [(3, 7), (3, 9), (5, 1)] (by decide) 3).1
      [(3, 7)] 9 [(5, 1)] rfl (by decide),
    (FakeEEPROM.read_after_writes [(3, 7), (3, 9), (5, 1)] (by decide) 4).2.1 (by decide)⟩

/-- C6: for every record size `1 ≤ R ≤ 255` the constructor stores
`record_size = R` and `num_records = floor((512 - 1) / (R + 1))`, a value that
fits the 8-bit field; for the shipped 4-byte `Record` this is `record_size = 4`
and `num_records = 102`. -/
theorem RecordStore.new_slot_count (r : Record) (R : Nat) (h1 : 1 ≤ R) (h2 : R ≤ 255) :
    (RecordStore.new r R).record_size = R ∧
      (RecordStore.new r R).num_records = (hardware_eeprom_size - 1) / (R + 1) ∧
      (hardware_eeprom_size - 1) / (R + 1) < 256 ∧
      (RecordStore.new r 4).record_size = 4 ∧ (RecordStore.new r 4).num_records = 102 := by
  refine ⟨RecordStore.new_record_size r R (by omega), ?_, ?_, rfl, rfl⟩
  · rw [RecordStore.new_num_records r R h1 (by omega)]; rfl
  · have h : hardware_eeprom_size - 1 = 511 := rfl
    rw [h, Nat.div_lt_iff_lt_mul (by omega)]; omega

/-- Witness of C6: the largest slot count, at `R = 1`. -/
theorem RecordStore.new_slot_count_witness :
    (1 ≤ 1 ∧ 1 ≤ 255) ∧
      (RecordStore.new ⟨999983⟩ 1).record_size = 1 ∧
      (RecordStore.new ⟨999983⟩ 1).num_records = (hardware_eeprom_size - 1) / (1 + 1) ∧
      (hardware_eeprom_size - 1) / (1 + 1) < 256 ∧
      (RecordStore.new ⟨999983⟩ 4).record_size = 4 ∧
      (RecordStore.new ⟨999983⟩ 4).num_records = 102 :=
  ⟨by decide, RecordStore.new_slot_count ⟨999983⟩ 1 (by decide) (by decide)⟩

/-- C7: for every record size `1 ≤ R ≤ 255`, `save()` on the constructed store
returns, and every address it passes to `eeprom.write` satisfies
`1 ≤ a < 512`. -/
theorem RecordStore.save_addresses_in_device (r : Record) (R : Nat) (b : Bus)
    (h1 : 1 ≤ R) (h2 : R ≤ 255) :
    ∃ b1 ws, (RecordStore.new r R).save b = some (RecordStore.new r R, b1) ∧
      b1.writes = b.writes ++ ws ∧
      ws.length = (RecordStore.new r R).num_records
        + (RecordStore.new r R).record_size * (RecordStore.new r R).num_records ∧
      ∀ w ∈ ws, 1 ≤ w.1 ∧ w.1 < hardware_eeprom_size := by
  refine ⟨b.writeAll (save_writes (RecordStore.new r R)), save_writes (RecordStore.new r R),
    RecordStore.save_eq _ b (RecordStore.new_num_records_lt r R)
      (RecordStore.new_record_size_lt r R), Bus.writeAll_writes _ _, save_writes_length _, ?_⟩
  intro w hw
  have hfit := RecordStore.new_fits r R h1 (by omega)
  have hmem := mem_save_writes_fst _ w hw
  have hN : hardware_eeprom_size = 512 := rfl
  omega

/-- Witness of C7: the shipped 4-byte record on a fresh device. -/
theorem RecordStore.save_addresses_in_device_witness :
    (1 ≤ 4 ∧ 4 ≤ 255) ∧
    ∃ b1 ws, (RecordStore.new ⟨999983⟩ 4).save Bus.fresh
        = some (RecordStore.new ⟨999983⟩ 4, b1) ∧
      b1.writes = Bus.fresh.writes ++ ws ∧
      ws.length = (RecordStore.new ⟨999983⟩ 4).num_records
        + (RecordStore.new ⟨999983⟩ 4).record_size * (RecordStore.new ⟨999983⟩ 4).num_records ∧
      ∀ w ∈ ws, 1 ≤ w.1 ∧ w.1 < hardware_eeprom_size :=
  ⟨by decide,
    RecordStore.save_addresses_in_device ⟨999983⟩ 4 Bus.fresh (by decide) (by decide)⟩

/-- C9: for every record size (in particular `1 ≤ R ≤ 255`), `update_status()`
returns, and its `k`-th write puts the value `1 + k` at address `1 + k`, for
`k < num_records`; so every status value written is non-zero (the 8-bit
counter does not wrap within one call). -/
theorem RecordStore.update_status_values_nonzero (r : Record) (R : Nat) (b : Bus) :
    ∃ b1 ws, (RecordStore.new r R).update_status b = some b1 ∧
      b1.writes = b.writes ++ ws ∧
      ws = (List.range (RecordStore.new r R).num_records).map (fun k => (1 + k, 1 + k)) ∧
      ∀ w ∈ ws, w.2 ≠ 0 ∧ w.2 ≤ 255 := by
  have hM := RecordStore.new_num_records_lt r R
  refine ⟨b.writeAll (status_writes (RecordStore.new r R)), status_writes (RecordStore.new r R),
    RecordStore.update_status_eq _ b hM, Bus.writeAll_writes _ _, ?_, ?_⟩
  · unfold status_writes
    apply List.map_congr_left
    intro k hk
    rw [List.mem_range] at hk
    rw [Nat.mod_eq_of_lt (by omega)]
  · intro w hw
    rw [mem_status_writes] at hw
    obtain ⟨k, hk, rfl⟩ := hw
    simp only
    rw [Nat.mod_eq_of_lt (by omega)]
    omega

/-! ## Lemmas: the device image after `save()` -/

theorem mem_save_writes (s : RecordStore) (w : Nat × Nat) :
    w ∈ save_writes s ↔
      (∃ k, k < s.num_records ∧ w = (1 + k, (1 + k) % 256)) ∨
      (∃ t, t < s.record_size * s.num_records ∧
        w = (s.num_records + 1 + t, (1 + t / s.record_size) % 256)) := by
  rw [save_writes, List.mem_append, mem_status_writes, mem_record_writes]

theorem last_write_save_status (s : RecordStore) (k : Nat) (hk : k < s.num_records) :
    last_write (save_writes s) (1 + k) = some ((1 + k) % 256) := by
  apply last_write_unique
  · rw [mem_save_writes]; exact Or.inl ⟨k, hk, rfl⟩
  · intro v1 hv1
    rw [mem_save_writes] at hv1
    rcases hv1 with ⟨k1, _, h1⟩ | ⟨t, _, h1⟩
    · simp only [Prod.mk.injEq] at h1
      have : k1 = k := by omega
      subst this; exact h1.2
    · simp only [Prod.mk.injEq] at h1
      omega

theorem last_write_save_payload (s : RecordStore) (t : Nat)
    (ht : t < s.record_size * s.num_records) :
    last_write (save_writes s) (s.num_records + 1 + t) = some ((1 + t / s.record_size) % 256) := by
  apply last_write_unique
  · rw [mem_save_writes]; exact Or.inr ⟨t, ht, rfl⟩
  · intro v1 hv1
    rw [mem_save_writes] at hv1
    rcases hv1 with ⟨k1, _, h1⟩ | ⟨t1, _, h1⟩
    · simp only [Prod.mk.injEq] at h1
      omega
    · simp only [Prod.mk.injEq] at h1
      have : t1 = t := by omega
      subst this; exact h1.2

theorem save_writes_in_range (s : RecordStore)
    (hfit : s.num_records + s.record_size * s.num_records ≤ 511) :
    ∀ w ∈ save_writes s, w.1 < 512 ∧ w.2 < 256 := by
  intro w hw
  have h1 := mem_save_writes_fst s w hw
  refine ⟨by omega, ?_⟩
  rw [mem_save_writes] at hw
  rcases hw with ⟨k, _, rfl⟩ | ⟨t, _, rfl⟩
  · exact Nat.mod_lt _ (by norm_num)
  · exact Nat.mod_lt _ (by norm_num)

/-- After the writes of one `save()`, payload byte `j` of slot `i` holds
`i + 1`, whatever the record is. -/
theorem slot_payload_after_save (s : RecordStore) (e : FakeEEPROM) (hlen : e.file.length = 512)
    (hM : s.num_records < 256)
    (hfit : s.num_records + s.record_size * s.num_records ≤ 511)
    (i : Nat) (hi : i < s.num_records) :
    slot_payload s (e.writeAll (save_writes s)) i
      = (List.range s.record_size).map (fun _ => 1 + i) := by
  unfold slot_payload
  apply List.map_congr_left
  intro j hj
  rw [List.mem_range] at hj
  have hrange : ∀ w ∈ save_writes s, w.1 < e.file.length ∧ w.2 < 256 := by
    rw [hlen]; exact save_writes_in_range s hfit
  have ht : i * s.record_size + j < s.record_size * s.num_records := by
    have h1 : (i + 1) * s.record_size ≤ s.num_records * s.record_size :=
      Nat.mul_le_mul_right _ hi
    have h2 : (i + 1) * s.record_size = i * s.record_size + s.record_size := by ring
    have h3 : s.num_records * s.record_size = s.record_size * s.num_records := by ring
    omega
  have haddr : 1 + s.num_records + i * s.record_size + j
      = s.num_records + 1 + (i * s.record_size + j) := by omega
  rw [FakeEEPROM.read_writeAll _ e hrange, haddr, last_write_save_payload s _ ht]
  simp only [Option.getD_some]
  have hdiv : (i * s.record_size + j) / s.record_size = i := by
    rw [Nat.add_comm, Nat.add_mul_div_right _ _ (by omega : 0 < s.record_size),
      Nat.div_eq_of_lt hj, Nat.zero_add]
  rw [hdiv, Nat.mod_eq_of_lt (by omega)]

theorem save_writes_set_record (s : RecordStore) (r : Record) :
    save_writes (s.set_record r) = save_writes s := rfl

theorem main_eq :
    main = some
      (Bus.fresh.writeAll (save_writes (RecordStore.new ⟨999983⟩ 4)),
        (RecordStore.new ⟨999983⟩ 4).set_record ⟨97⟩,
        (Bus.fresh.writeAll (save_writes (RecordStore.new ⟨999983⟩ 4))).writeAll
          (save_writes (RecordStore.new ⟨999983⟩ 4))) := by
  unfold main
  simp only
  rw [RecordStore.save_eq _ _ (by decide) (by decide)]
  simp only
  rw [RecordStore.save_eq _ _ (by decide) (by decide), save_writes_set_record]

theorem main_first_image_length :
    (Bus.fresh.writeAll (save_writes (RecordStore.new ⟨999983⟩ 4))).eeprom.file.length
      = 512 := by
  rw [Bus.writeAll_eeprom, FakeEEPROM.writeAll_length]
  · exact FakeEEPROM.new_length
  · intro w hw
    have h : Bus.fresh.eeprom.file.length = 512 := FakeEEPROM.new_length
    rw [h]
    exact (save_writes_in_range _ (by decide) w hw).1

theorem main_slot_payload (e : FakeEEPROM) (hlen : e.file.length = 512) (i : Nat)
    (hi : i < 102) :
    slot_payload ((RecordStore.new ⟨999983⟩ 4).set_record ⟨97⟩)
      (e.writeAll (save_writes (RecordStore.new ⟨999983⟩ 4))) i
      = [1 + i, 1 + i, 1 + i, 1 + i] := by
  rw [← save_writes_set_record _ ⟨97⟩,
    slot_payload_after_save _ e hlen (by decide) (by decide) i hi]
  rfl

theorem save_writes_getElem_status (s : RecordStore) (k : Nat) (hk : k < s.num_records) :
    (save_writes s)[k]? = some (1 + k, (1 + k) % 256) := by
  unfold save_writes status_writes
  rw [List.getElem?_append_left (by simpa using hk), List.getElem?_map,
    List.getElem?_range hk]
  rfl

theorem save_writes_getElem_payload (s : RecordStore) (t : Nat)
    (ht : t < s.record_size * s.num_records) :
    (save_writes s)[s.num_records + t]?
      = some (s.num_records + 1 + t, (1 + t / s.record_size) % 256) := by
  unfold save_writes status_writes record_writes
  rw [List.getElem?_append_right (by simp), List.getElem?_map]
  simp only [List.length_map, List.length_range, Nat.add_sub_cancel_left]
  rw [List.getElem?_range ht]
  rfl

/-! ## Theorems about `save()` -/

/-- C1 evaluated on `main()`: both `save()` calls return; after the first
(record 999983) no slot's payload region holds the bytes of 999983, and after
the second (record 97) no slot's payload region holds the bytes of 97. -/
theorem main_records_not_stored :
    ∃ b1 s2 b2, main = some (b1, s2, b2) ∧ s2.record = ⟨97⟩ ∧
      s2.record_size = 4 ∧ s2.num_records = 102 ∧
      (∀ i, i < s2.num_records → slot_payload s2 b1.eeprom i ≠ Record.bytes ⟨999983⟩) ∧
      (∀ i, i < s2.num_records → slot_payload s2 b2.eeprom i ≠ Record.bytes ⟨97⟩) := by
  refine ⟨_, _, _, main_eq, rfl, rfl, rfl, ?_, ?_⟩
  · intro i hi
    have hfresh : Bus.fresh.eeprom = FakeEEPROM.new := rfl
    rw [Bus.writeAll_eeprom, hfresh, main_slot_payload _ FakeEEPROM.new_length i hi]
    intro h
    simp only [Record.bytes, Nat.reduceMod, Nat.reduceDiv, List.cons.injEq] at h
    omega
  · intro i hi
    rw [Bus.writeAll_eeprom, main_slot_payload _ main_first_image_length i hi]
    intro h
    simp only [Record.bytes, Nat.reduceMod, Nat.reduceDiv, List.cons.injEq] at h
    omega

/-- C2, as stated, fails on the first `save()` of `main()`: write number 0 goes
to status address 1 and the later write number 102 goes to payload address
103, so a status byte is written before a payload byte. -/
theorem save_payload_first_counterexample :
    ∃ b1, (RecordStore.new ⟨999983⟩ 4).save Bus.fresh
        = some (RecordStore.new ⟨999983⟩ 4, b1) ∧
      b1.writes[0]? = some (1, 1) ∧ b1.writes[102]? = some (103, 1) ∧
      is_status_address (RecordStore.new ⟨999983⟩ 4) 1 ∧
      is_payload_address (RecordStore.new ⟨999983⟩ 4) 103 ∧
      ¬ payload_before_status (RecordStore.new ⟨999983⟩ 4) b1.writes := by
  have h0 : (Bus.fresh.writeAll (save_writes (RecordStore.new ⟨999983⟩ 4))).writes[0]?
      = some (1, 1) := by
    rw [Bus.writeAll_writes]
    exact save_writes_getElem_status _ 0 (by decide)
  have h102 : (Bus.fresh.writeAll (save_writes (RecordStore.new ⟨999983⟩ 4))).writes[102]?
      = some (103, 1) := by
    rw [Bus.writeAll_writes]
    exact save_writes_getElem_payload _ 0 (by decide)
  have hs : is_status_address (RecordStore.new ⟨999983⟩ 4) 1 := by
    unfold is_status_address; decide
  have hp : is_payload_address (RecordStore.new ⟨999983⟩ 4) 103 := by
    unfold is_payload_address; decide
  refine ⟨_, RecordStore.save_eq _ _ (by decide) (by decide), h0, h102, hs, hp, ?_⟩
  intro h
  exact h 0 102 (1, 1) (103, 1) (by decide) h0 h102 ⟨hs, hp⟩

/-- C2 amended: `save()` returns, and in the sequence of device writes it
issues the status bytes come first: no write to a payload address is followed
by a later write to a status address; every write goes to a status or a
payload address, and there are `M + R * M` of them. -/
theorem RecordStore.save_status_first (r : Record) (R : Nat) (b : Bus) :
    ∃ b1 ws, (RecordStore.new r R).save b = some (RecordStore.new r R, b1) ∧
      b1.writes = b.writes ++ ws ∧
      status_before_payload (RecordStore.new r R) ws ∧
      (∀ w ∈ ws, is_status_address (RecordStore.new r R) w.1 ∨
        is_payload_address (RecordStore.new r R) w.1) ∧
      ws.length = (RecordStore.new r R).num_records
        + (RecordStore.new r R).record_size * (RecordStore.new r R).num_records := by
  refine ⟨b.writeAll (save_writes (RecordStore.new r R)), save_writes (RecordStore.new r R),
    RecordStore.save_eq _ b (RecordStore.new_num_records_lt r R)
      (RecordStore.new_record_size_lt r R), Bus.writeAll_writes _ _, ?_, ?_,
    save_writes_length _⟩
  · intro i j wi wj hij hi hj hboth
    have h1 := save_writes_getElem_fst _ i wi hi
    have h2 := save_writes_getElem_fst _ j wj hj
    unfold is_payload_address is_status_address at hboth
    omega
  · intro w hw
    have h1 := mem_save_writes_fst _ w hw
    unfold is_payload_address is_status_address
    omega

/-- C3 evaluated on `main()`: the first `save()` writes every address
`1 .. 510` once, that is the status byte and the payload of all 102 slots, the
second `save()` writes them all again, and `current_index` is still 0 after
both calls. -/
theorem main_save_rewrites_every_slot :
    ∃ b1 s2 b2, main = some (b1, s2, b2) ∧
      s2.num_records = 102 ∧ s2.record_size = 4 ∧ s2.current_index = 0 ∧
      (∀ a, 1 ≤ a → a ≤ 510 → write_count b1.writes a = 1) ∧
      (∀ a, 1 ≤ a → a ≤ 510 → write_count b2.writes a = 2) := by
  refine ⟨_, _, _, main_eq, rfl, rfl, rfl, ?_, ?_⟩
  · intro a h1 h2
    rw [Bus.writeAll_writes, write_count_append,
      write_count_save_writes _ a h1 (by
        have h : (RecordStore.new ⟨999983⟩ 4).num_records
          + (RecordStore.new ⟨999983⟩ 4).record_size
            * (RecordStore.new ⟨999983⟩ 4).num_records = 510 := by decide
        omega)]
    rfl
  · intro a h1 h2
    have h : (RecordStore.new ⟨999983⟩ 4).num_records
        + (RecordStore.new ⟨999983⟩ 4).record_size
          * (RecordStore.new ⟨999983⟩ 4).num_records = 510 := by decide
    rw [Bus.writeAll_writes, Bus.writeAll_writes, write_count_append, write_count_append,
      write_count_save_writes _ a h1 (by omega)]
    rfl

/-- C4 evaluated on the store of `main()`: `k = 102 = num_records` consecutive
`save()` calls all return, and afterwards every address `1 .. 510`, status
bytes and payload bytes alike, has been written 102 times, not
`k / num_records = 1` time. -/
theorem save_times_wears_every_cell :
    ∃ b, save_times 102 (RecordStore.new ⟨999983⟩ 4) Bus.fresh
        = some (RecordStore.new ⟨999983⟩ 4, b) ∧
      (RecordStore.new ⟨999983⟩ 4).num_records = 102 ∧
      102 / (RecordStore.new ⟨999983⟩ 4).num_records = 1 ∧
      (∀ a, 1 ≤ a → a ≤ 102 → write_count b.writes a = 102) ∧
      (∀ a, 103 ≤ a → a ≤ 510 → write_count b.writes a = 102) := by
  have h : (RecordStore.new ⟨999983⟩ 4).num_records
      + (RecordStore.new ⟨999983⟩ 4).record_size
        * (RecordStore.new ⟨999983⟩ 4).num_records = 510 := by decide
  have hcount : ∀ a, 1 ≤ a → a ≤ 510 →
      write_count (Bus.fresh.writeAll
        (save_writes_times 102 (RecordStore.new ⟨999983⟩ 4))).writes a = 102 := by
    intro a h1 h2
    rw [Bus.writeAll_writes, write_count_append,
      write_count_save_writes_times 102 _ a h1 (by omega)]
    rfl
  refine ⟨_, save_times_eq 102 _ _ (by decide) (by decide), rfl, rfl, ?_, ?_⟩
  · intro a h1 h2
    exact hcount a h1 (by omega)
  · intro a h1 h2
    exact hcount a (by omega) h2

/-! ## The device image of `save()` -/

theorem FakeEEPROM.ext_read (e1 e2 : FakeEEPROM) (hlen : e1.file.length = e2.file.length)
    (h : ∀ a, e1.read a = e2.read a) : e1 = e2 := by
  cases e1 with
  | mk f1 =>
    cases e2 with
    | mk f2 =>
      simp only [FakeEEPROM.mk.injEq]
      apply List.ext_getElem hlen
      intro n h1 h2
      have hn := h n
      simp only [FakeEEPROM.read] at hn
      rw [List.getD_eq_getElem _ _ h1, List.getD_eq_getElem _ _ h2] at hn
      exact hn

theorem FakeEEPROM.writeAll_twice (e : FakeEEPROM) (ws : List (Nat × Nat))
    (h : ∀ w ∈ ws, w.1 < e.file.length ∧ w.2 < 256) :
    (e.writeAll ws).writeAll ws = e.writeAll ws := by
  have hlen1 : (e.writeAll ws).file.length = e.file.length :=
    FakeEEPROM.writeAll_length ws e (fun w hw => (h w hw).1)
  have h2 : ∀ w ∈ ws, w.1 < (e.writeAll ws).file.length ∧ w.2 < 256 := by
    rw [hlen1]; exact h
  apply FakeEEPROM.ext_read
  · rw [FakeEEPROM.writeAll_length ws _ (fun w hw => (h2 w hw).1)]
  · intro a
    rw [FakeEEPROM.read_writeAll ws _ h2, FakeEEPROM.read_writeAll ws _ h]
    cases last_write ws a <;> rfl

theorem save_writes_new_record (r r2 : Record) (R : Nat) :
    save_writes (RecordStore.new r2 R) = save_writes (RecordStore.new r R) := rfl

/-- C16: for every record size `1 ≤ R ≤ 255` and every prior contents of the
512-byte device, `save()` returns, and afterwards the status byte of slot `i`
at address `1 + i` and every payload byte of slot `i` at
`1 + M + i * R + j` (`j < R`) hold `i + 1`, for every `i < M = num_records`;
byte 0 and the bytes past the last slot are unchanged; the image is the same
for every record value, and a second `save()` leaves the image as it is. -/
theorem RecordStore.save_image (r : Record) (R : Nat) (b : Bus) (h1 : 1 ≤ R) (h2 : R ≤ 255)
    (hlen : b.eeprom.file.length = hardware_eeprom_size) :
    ∃ b1, (RecordStore.new r R).save b = some (RecordStore.new r R, b1) ∧
      (∀ i, i < (RecordStore.new r R).num_records → b1.eeprom.read (1 + i) = i + 1) ∧
      (∀ i j, i < (RecordStore.new r R).num_records → j < R →
        b1.eeprom.read (1 + (RecordStore.new r R).num_records + i * R + j) = i + 1) ∧
      (∀ a, (a = 0 ∨ (RecordStore.new r R).num_records
          + R * (RecordStore.new r R).num_records < a) →
        b1.eeprom.read a = b.eeprom.read a) ∧
      b1.eeprom.file.length = hardware_eeprom_size ∧
      (∀ r2, ∃ b2, (RecordStore.new r2 R).save b = some (RecordStore.new r2 R, b2) ∧
        b2.eeprom = b1.eeprom) ∧
      (∃ b3, (RecordStore.new r R).save b1 = some (RecordStore.new r R, b3) ∧
        b3.eeprom = b1.eeprom) := by
  have hM := RecordStore.new_num_records_lt r R
  have hRlt := RecordStore.new_record_size_lt r R
  have hRs : (RecordStore.new r R).record_size = R := RecordStore.new_record_size r R (by omega)
  have hfit := RecordStore.new_fits r R h1 (by omega)
  have hN : hardware_eeprom_size = 512 := rfl
  rw [hN] at hlen
  have hrange : ∀ w ∈ save_writes (RecordStore.new r R),
      w.1 < b.eeprom.file.length ∧ w.2 < 256 := by
    rw [hlen]; exact save_writes_in_range _ hfit
  refine ⟨b.writeAll (save_writes (RecordStore.new r R)),
    RecordStore.save_eq _ b hM hRlt, ?_, ?_, ?_, ?_, ?_, ?_⟩
  · intro i hi
    rw [Bus.writeAll_eeprom, FakeEEPROM.read_writeAll _ _ hrange,
      last_write_save_status _ i hi]
    simp only [Option.getD_some]
    rw [Nat.mod_eq_of_lt (by omega)]
    omega
  · intro i j hi hj
    have hsp := slot_payload_after_save (RecordStore.new r R) b.eeprom hlen hM hfit i hi
    have hj2 : j < (RecordStore.new r R).record_size := by rw [hRs]; exact hj
    have hget := congrArg (fun l => l[j]?) hsp
    simp only [slot_payload, List.getElem?_map, List.getElem?_range hj2, Option.map_some'] at hget
    rw [hRs] at hget
    rw [Bus.writeAll_eeprom]
    simp only [Option.some.injEq] at hget
    omega
  · intro a ha
    rw [Bus.writeAll_eeprom, FakeEEPROM.read_writeAll _ _ hrange, last_write_none]
    · rfl
    · intro w hw
      have hmem := mem_save_writes_fst _ w hw
      rw [hRs] at hmem
      omega
  · rw [Bus.writeAll_eeprom, FakeEEPROM.writeAll_length _ _ (fun w hw => (hrange w hw).1), hlen,
      hN]
  · intro r2
    refine ⟨b.writeAll (save_writes (RecordStore.new r2 R)),
      RecordStore.save_eq _ b (RecordStore.new_num_records_lt r2 R)
        (RecordStore.new_record_size_lt r2 R), ?_⟩
    rw [save_writes_new_record r r2 R]
  · refine ⟨(b.writeAll (save_writes (RecordStore.new r R))).writeAll
      (save_writes (RecordStore.new r R)), RecordStore.save_eq _ _ hM hRlt, ?_⟩
    rw [Bus.writeAll_eeprom, Bus.writeAll_eeprom, FakeEEPROM.writeAll_twice _ _ hrange]

/-- Witness of C16: the shipped 4-byte record on a freshly erased device. -/
theorem RecordStore.save_image_witness :
    (1 ≤ 4 ∧ 4 ≤ 255 ∧ Bus.fresh.eeprom.file.length = hardware_eeprom_size) ∧
    ∃ b1, (RecordStore.new ⟨999983⟩ 4).save Bus.fresh
        = some (RecordStore.new ⟨999983⟩ 4, b1) ∧
      (∀ i, i < (RecordStore.new ⟨999983⟩ 4).num_records → b1.eeprom.read (1 + i) = i + 1) ∧
      (∀ i j, i < (RecordStore.new ⟨999983⟩ 4).num_records → j < 4 →
        b1.eeprom.read (1 + (RecordStore.new ⟨999983⟩ 4).num_records + i * 4 + j) = i + 1) ∧
      (∀ a, (a = 0 ∨ (RecordStore.new ⟨999983⟩ 4).num_records
          + 4 * (RecordStore.new ⟨999983⟩ 4).num_records < a) →
        b1.eeprom.read a = Bus.fresh.eeprom.read a) ∧
      b1.eeprom.file.length = hardware_eeprom_size ∧
      (∀ r2, ∃ b2, (RecordStore.new r2 4).save Bus.fresh = some (RecordStore.new r2 4, b2) ∧
        b2.eeprom = b1.eeprom) ∧
      (∃ b3, (RecordStore.new ⟨999983⟩ 4).save b1 = some (RecordStore.new ⟨999983⟩ 4, b3) ∧
        b3.eeprom = b1.eeprom) :=
  ⟨⟨by decide, by decide, FakeEEPROM.new_length⟩,
    RecordStore.save_image ⟨999983⟩ 4 Bus.fresh (by decide) (by decide) FakeEEPROM.new_length⟩

end wear_leveling

/-! ## Theorems: `bar-graph/leds.c` -/

namespace leds

theorem is_prime2_loop_spec (n : Nat) (hn : n < 2 ^ 18) (hn2 : 2 ≤ n) (h2 : n % 2 ≠ 0)
    (h3 : n % 3 ≠ 0) :
    ∀ (fuel i w : Nat), 1 ≤ fuel → n + 6 ≤ fuel + i → 5 ≤ i → i < 65536 →
      ((i % 6 = 5 ∧ w = 2) ∨ (i % 6 = 1 ∧ w = 4)) →
      (∀ d, 2 ≤ d → d < i → ¬ d ∣ n) →
      (is_prime2_loop fuel n i w = some 1 ∧ Nat.Prime n) ∨
        (is_prime2_loop fuel n i w = some 0 ∧ ¬ Nat.Prime n) := by
  intro fuel
  induction fuel with
  | zero => intro i w h; omega
  | succ fuel ih =>
    intro i w _ hfuel hi5 hi hw hdiv
    have hii : i * i < 4294967296 := by nlinarith
    unfold is_prime2_loop
    rw [Nat.mod_eq_of_lt hii]
    by_cases hle : i * i ≤ n
    · rw [if_pos hle]
      have hi512 : i < 512 := by
        by_contra hc
        have : 512 * 512 ≤ i * i := Nat.mul_le_mul (by omega) (by omega)
        norm_num at hn
        omega
      have hin : i < n := by nlinarith
      by_cases hmod : n % i = 0
      · rw [if_pos hmod]
        right
        refine ⟨rfl, ?_⟩
        intro hp
        have hd : i ∣ n := Nat.dvd_of_mod_eq_zero hmod
        rcases (Nat.dvd_prime hp).1 hd with h | h <;> omega
      · rw [if_neg hmod]
        have hw4 : w = 2 ∨ w = 4 := by omega
        have hiw : (i + w) % 4294967296 = i + w := Nat.mod_eq_of_lt (by omega)
        rw [hiw]
        apply ih
        · omega
        · omega
        · omega
        · omega
        · rcases hw with ⟨h6, rfl⟩ | ⟨h6, rfl⟩
          · right; constructor
            · omega
            · norm_num
          · left; constructor
            · omega
            · norm_num
        · intro d hd2 hdlt hdn
          by_cases hdi : d < i
          · exact hdiv d hd2 hdi hdn
          · by_cases hde : d = i
            · subst hde
              exact hmod (Nat.mod_eq_zero_of_dvd hdn)
            · have h23 : d % 2 = 0 ∨ d % 3 = 0 := by omega
              rcases h23 with h | h
              · exact h2 (Nat.mod_eq_zero_of_dvd
                  (Nat.dvd_trans (Nat.dvd_of_mod_eq_zero h) hdn))
              · exact h3 (Nat.mod_eq_zero_of_dvd
                  (Nat.dvd_trans (Nat.dvd_of_mod_eq_zero h) hdn))
    · rw [if_neg hle]
      left
      refine ⟨rfl, ?_⟩
      rw [Nat.prime_def_le_sqrt]
      refine ⟨hn2, ?_⟩
      intro m hm2 hms
      apply hdiv m hm2
      rw [Nat.le_sqrt] at hms
      by_contra hc
      have : i * i ≤ m * m := Nat.mul_le_mul (by omega) (by omega)
      omega

/-- C10: for every `n` with `2 ≤ n < 2^18`, `is_prime2(n)` returns (1 or 0), and
it returns 1 if and only if `n` is prime. -/
theorem is_prime2_correct (n : Nat) (h2 : 2 ≤ n) (hn : n < 2 ^ 18) :
    (is_prime2 n = some 1 ↔ Nat.Prime n) ∧ (is_prime2 n = some 1 ∨ is_prime2 n = some 0) := by
  have key : (is_prime2 n = some 1 ∧ Nat.Prime n) ∨ (is_prime2 n = some 0 ∧ ¬ Nat.Prime n) := by
    unfold is_prime2
    by_cases h23 : n = 2 ∨ n = 3
    · rw [if_pos h23]
      left
      refine ⟨rfl, ?_⟩
      rcases h23 with rfl | rfl
      · exact Nat.prime_two
      · exact Nat.prime_three
    · rw [if_neg h23]
      by_cases hdiv : n % 2 = 0 ∨ n % 3 = 0
      · rw [if_pos hdiv]
        right
        refine ⟨rfl, ?_⟩
        intro hp
        rcases hdiv with h | h
        · rcases (Nat.dvd_prime hp).1 (Nat.dvd_of_mod_eq_zero h) with h1 | h1 <;> omega
        · rcases (Nat.dvd_prime hp).1 (Nat.dvd_of_mod_eq_zero h) with h1 | h1 <;> omega
      · rw [if_neg hdiv]
        have hm2 : n % 2 ≠ 0 := fun h => hdiv (Or.inl h)
        have hm3 : n % 3 ≠ 0 := fun h => hdiv (Or.inr h)
        apply is_prime2_loop_spec n hn h2 hm2 hm3 (n + 1) 5 2 (by omega) (by omega)
          (by omega) (by omega) (Or.inl ⟨rfl, rfl⟩)
        intro d hd2 hd5 hdn
        have hd : d = 2 ∨ d = 3 ∨ d = 4 := by omega
        rcases hd with rfl | rfl | rfl <;> omega
  rcases key with ⟨h, hp⟩ | ⟨h, hp⟩
  · exact ⟨⟨fun _ => hp, fun _ => h⟩, Or.inl h⟩
  · refine ⟨⟨fun h1 => ?_, fun h1 => absurd h1 hp⟩, Or.inr h⟩
    rw [h] at h1
    cases h1

/-- Witness of C10 at `n = 97`, the value `main()` of the EEPROM test stores. -/
theorem is_prime2_correct_witness :
    (2 ≤ 97 ∧ 97 < 2 ^ 18) ∧
      (is_prime2 97 = some 1 ↔ Nat.Prime 97) ∧ (is_prime2 97 = some 1 ∨ is_prime2 97 = some 0) :=
  ⟨by decide, is_prime2_correct 97 (by decide) (by decide)⟩

end leds

/-! ## Lemmas: 8-bit register updates -/

namespace avr

theorem testBit_or_assign (x m j : Nat) (hj : j < 8) :
    (or_assign x m).testBit j = (x.testBit j || m.testBit j) := by
  have h256 : (256 : Nat) = 2 ^ 8 := by norm_num
  unfold or_assign
  rw [h256, Nat.testBit_mod_two_pow, Nat.testBit_or]
  simp [hj]

theorem testBit_and_not_assign (x m j : Nat) (hj : j < 8) (hm : m < 65536) :
    (and_not_assign x m).testBit j = (x.testBit j && !m.testBit j) := by
  have h256 : (256 : Nat) = 2 ^ 8 := by norm_num
  have h : 65535 - m = 2 ^ 16 - (m + 1) := by norm_num; omega
  have h16 : j < 16 := by omega
  unfold and_not_assign
  rw [h256, Nat.testBit_mod_two_pow, Nat.testBit_and, h,
    Nat.testBit_two_pow_sub_succ (by norm_num; exact hm)]
  simp [hj, h16]

theorem testBit_one_shl (k j : Nat) : (1 <<< k).testBit j = decide (k = j) := by
  rw [Nat.one_shiftLeft, Nat.testBit_two_pow]

theorem one_shl_lt (k : Nat) (hk : k < 8) : 1 <<< k < 256 := by
  rw [Nat.one_shiftLeft]
  have h : (2 : Nat) ^ k < 2 ^ 8 := Nat.pow_lt_pow_right (by norm_num) hk
  simpa using h

end avr

/-! ## Lemmas and theorems: the LED string -/

namespace leds

theorem Ports.get_set (s : Ports) (p q : Port) (v : Nat) :
    (s.set p v).get q = if q = p then v else s.get q := by
  cases p <;> cases q <;> simp [Ports.get, Ports.set]

theorem write_led_testBit (s : Ports) (l : led_pin) (v : Bool) (hl : l.pin < 8)
    (P : Port) (j : Nat) (hj : j < 8) :
    ((write_led s l v).get P).testBit j =
      if P = l.port ∧ j = l.pin then v else (s.get P).testBit j := by
  have hm : 1 <<< l.pin < 65536 := by
    have := avr.one_shl_lt l.pin hl
    omega
  unfold write_led
  cases v with
  | true =>
    simp only [if_true, Ports.get_set]
    by_cases hP : P = l.port
    · rw [if_pos hP, avr.testBit_or_assign _ _ _ hj, avr.testBit_one_shl]
      by_cases hjp : j = l.pin
      · subst hjp; simp [hP]
      · have : ¬ (l.pin = j) := fun h => hjp h.symm
        simp [hP, hjp, this]
    · simp [hP]
  | false =>
    simp only [Bool.false_eq_true, if_false, Ports.get_set]
    by_cases hP : P = l.port
    · rw [if_pos hP, avr.testBit_and_not_assign _ _ _ hj hm, avr.testBit_one_shl]
      by_cases hjp : j = l.pin
      · subst hjp; simp [hP]
      · have : ¬ (l.pin = j) := fun h => hjp h.symm
        simp [hP, hjp, this]
    · simp [hP]

theorem bit_ne_zero_iff (number i : Nat) :
    (((number >>> i) &&& 1) % 256 ≠ 0) ↔ number.testBit i = true := by
  have hle : (number >>> i) &&& 1 ≤ 1 := Nat.and_le_right
  rw [Nat.mod_eq_of_lt (by omega)]
  simp [Nat.testBit, Nat.and_comm]

theorem print_binary_step (number i : Nat) (s : Ports) (l : led_pin) (hl : leds[i]? = some l) :
    (if ((number >>> i) &&& 1) % 256 ≠ 0 then led_on i s else led_off i s)
      = some (write_led s l (number.testBit i)) := by
  unfold led_on led_off write_led
  rw [hl]
  by_cases hb : number.testBit i = true
  · rw [if_pos ((bit_ne_zero_iff number i).2 hb), hb]
    simp
  · rw [if_neg (fun h => hb ((bit_ne_zero_iff number i).1 h))]
    simp only [Bool.not_eq_true] at hb
    rw [hb]
    simp

theorem print_binary_loop_eq (number : Nat) :
    ∀ (fuel i : Nat) (s : Ports), i ≤ 18 → 18 - i < fuel →
      print_binary_loop fuel number i s = some (paint number (leds.drop i) i s) := by
  intro fuel
  induction fuel with
  | zero => intro i s _ h; omega
  | succ fuel ih =>
    intro i s hi hfuel
    unfold print_binary_loop
    by_cases hlt : i < num_leds
    · have hlt18 : i < 18 := hlt
      have hlen : i < leds.length := hlt
      rw [if_pos hlt]
      simp only
      rw [print_binary_step number i s leds[i] (List.getElem?_eq_getElem hlen)]
      simp only
      rw [Nat.mod_eq_of_lt (by omega), ih (i + 1) _ (by omega) (by omega),
        List.drop_eq_getElem_cons hlen, paint]
    · rw [if_neg hlt]
      have h18 : i = 18 := by
        have : ¬ i < 18 := hlt
        omega
      subst h18
      rfl

theorem print_binary_eq (number : Nat) (s : Ports) :
    print_binary number s = some (paint number leds 0 s) := by
  unfold print_binary
  rw [print_binary_loop_eq number 256 0 s (by omega) (by omega)]
  rfl

theorem paint_leds_testBit (number : Nat) (s : Ports) (P : Port) (j : Nat) (hj : j < 8) :
    ((paint number leds 0 s).get P).testBit j =
      if P = .B ∧ j = 0 then number.testBit 17
      else if P = .D ∧ j = 7 then number.testBit 16
      else if P = .D ∧ j = 6 then number.testBit 15
      else if P = .D ∧ j = 5 then number.testBit 14
      else if P = .B ∧ j = 7 then number.testBit 13
      else if P = .C ∧ j = 0 then number.testBit 12
      else if P = .C ∧ j = 1 then number.testBit 11
      else if P = .C ∧ j = 2 then number.testBit 10
      else if P = .C ∧ j = 3 then number.testBit 9
      else if P = .C ∧ j = 4 then number.testBit 8
      else if P = .C ∧ j = 5 then number.testBit 7
      else if P = .B ∧ j = 6 then number.testBit 6
      else if P = .D ∧ j = 4 then number.testBit 5
      else if P = .D ∧ j = 3 then number.testBit 4
      else if P = .D ∧ j = 2 then number.testBit 3
      else if P = .B ∧ j = 2 then number.testBit 2
      else if P = .B ∧ j = 3 then number.testBit 1
      else if P = .B ∧ j = 4 then number.testBit 0
      else (s.get P).testBit j := by
  simp only [leds, paint]
  repeat rw [write_led_testBit _ _ _ (by decide) P j hj]

/-- C11: for every number and any initial port contents, `print_binary(number)`
returns, and afterwards the port bit of LED `i` is set if and only if bit `i`
of `number` is 1, for every LED of the table at once; port bits that belong to
no LED are unchanged; the 18 `(port, pin)` pairs of the table are pairwise
distinct. -/
theorem print_binary_shows_number (number : Nat) (s : Ports) :
    ∃ s1, print_binary number s = some s1 ∧
      (∀ i l, leds[i]? = some l → (s1.get l.port).testBit l.pin = number.testBit i) ∧
      (∀ P j, j < 8 → (∀ l ∈ leds, ¬ (l.port = P ∧ l.pin = j)) →
        (s1.get P).testBit j = (s.get P).testBit j) ∧
      (leds.map (fun l => (l.port, l.pin))).Nodup ∧ leds.length = num_leds := by
  refine ⟨_, print_binary_eq number s, ?_, ?_, by decide, rfl⟩
  · intro i l hl
    have hi : i < 18 := by
      have h := (List.getElem?_eq_some.1 hl).1
      exact h
    interval_cases i <;> simp only [leds, List.getElem?_cons_zero, List.getElem?_cons_succ,
      Option.some.injEq] at hl <;> subst hl <;>
      rw [paint_leds_testBit number s _ _ (by decide)] <;> simp
  · intro P j hj hno
    rw [paint_leds_testBit number s P j hj]
    rw [if_neg (fun h => hno ⟨.B, .B, 0⟩ (by decide) ⟨h.1.symm, h.2.symm⟩)]
    rw [if_neg (fun h => hno ⟨.D, .D, 7⟩ (by decide) ⟨h.1.symm, h.2.symm⟩)]
    rw [if_neg (fun h => hno ⟨.D, .D, 6⟩ (by decide) ⟨h.1.symm, h.2.symm⟩)]
    rw [if_neg (fun h => hno ⟨.D, .D, 5⟩ (by decide) ⟨h.1.symm, h.2.symm⟩)]
    rw [if_neg (fun h => hno ⟨.B, .B, 7⟩ (by decide) ⟨h.1.symm, h.2.symm⟩)]
    rw [if_neg (fun h => hno ⟨.C, .C, 0⟩ (by decide) ⟨h.1.symm, h.2.symm⟩)]
    rw [if_neg (fun h => hno ⟨.C, .C, 1⟩ (by decide) ⟨h.1.symm, h.2.symm⟩)]
    rw [if_neg (fun h => hno ⟨.C, .C, 2⟩ (by decide) ⟨h.1.symm, h.2.symm⟩)]
    rw [if_neg (fun h => hno ⟨.C, .C, 3⟩ (by decide) ⟨h.1.symm, h.2.symm⟩)]
    rw [if_neg (fun h => hno ⟨.C, .C, 4⟩ (by decide) ⟨h.1.symm, h.2.symm⟩)]
    rw [if_neg (fun h => hno ⟨.C, .C, 5⟩ (by decide) ⟨h.1.symm, h.2.symm⟩)]
    rw [if_neg (fun h => hno ⟨.B, .B, 6⟩ (by decide) ⟨h.1.symm, h.2.symm⟩)]
    rw [if_neg (fun h => hno ⟨.D, .D, 4⟩ (by decide) ⟨h.1.symm, h.2.symm⟩)]
    rw [if_neg (fun h => hno ⟨.D, .D, 3⟩ (by decide) ⟨h.1.symm, h.2.symm⟩)]
    rw [if_neg (fun h => hno ⟨.D, .D, 2⟩ (by decide) ⟨h.1.symm, h.2.symm⟩)]
    rw [if_neg (fun h => hno ⟨.B, .B, 2⟩ (by decide) ⟨h.1.symm, h.2.symm⟩)]
    rw [if_neg (fun h => hno ⟨.B, .B, 3⟩ (by decide) ⟨h.1.symm, h.2.symm⟩)]
    rw [if_neg (fun h => hno ⟨.B, .B, 4⟩ (by decide) ⟨h.1.symm, h.2.symm⟩)]

end leds

/-! ## Lemmas and theorems: `max7219/max7219.cpp` -/

namespace max7219

theorem transmit_bits_isSome (d : MAX7219) (byte : Nat) :
    ∀ (fuel bit port : Nat), (bit = 255 ∧ 0 < fuel) ∨ (bit ≤ 7 ∧ bit + 1 < fuel) →
      ∃ p, transmit_bits fuel d byte bit port = some p := by
  intro fuel
  induction fuel with
  | zero => intro bit port h; omega
  | succ fuel ih =>
    intro bit port h
    unfold transmit_bits
    by_cases hlt : bit < 255
    · rw [if_pos hlt]
      simp only
      apply ih
      omega
    · rw [if_neg hlt]
      exact ⟨port, rfl⟩

theorem transmit_bytes_isSome (d : MAX7219) (address body : Nat) :
    ∀ (fuel i port : Nat), i ≤ 2 → 2 - i < fuel →
      ∃ p, transmit_bytes fuel d [address, body] i port = some p := by
  intro fuel
  induction fuel with
  | zero => intro i port _ h; omega
  | succ fuel ih =>
    intro i port hi hfuel
    unfold transmit_bytes
    by_cases hlt : i < 2
    · rw [if_pos hlt]
      have hlen : i < [address, body].length := hlt
      rw [List.getElem?_eq_getElem hlen]
      simp only
      obtain ⟨p1, hp1⟩ := transmit_bits_isSome d [address, body][i] 256 7 port
        (Or.inr ⟨by omega, by omega⟩)
      rw [hp1]
      simp only
      rw [Nat.mod_eq_of_lt (by omega)]
      exact ih (i + 1) p1 (by omega) (by omega)
    · rw [if_neg hlt]
      exact ⟨port, rfl⟩

theorem MAX7219.transmit_sent (d : MAX7219) (address body : Nat) (st : Pins) :
    ∃ st1, d.transmit address body st = some st1 ∧
      st1.sent = st.sent ++ [(address, body)] := by
  obtain ⟨p, hp⟩ := transmit_bytes_isSome d address body 256 0
    (bit_clear st.PORT d.chip_select) (by omega) (by omega)
  unfold MAX7219.transmit
  simp only
  rw [hp]
  exact ⟨_, rfl, rfl⟩

/-- C12 evaluated on the code: for every brightness, `init(brightness)`
returns after exactly four `transmit` calls: scan limit `(0x0B, 0x06)`, decode
mode `(0x09, 0xFF)`, intensity `(0x0A, min(brightness, 15))` and shutdown
`(0x0C, 0x01)`.  The scan-limit data is `0x06` (digits 0 to 6), not `0x07`. -/
theorem MAX7219.init_transmits (d : MAX7219) (brightness : Nat) (st : Pins) :
    ∃ st1, d.init brightness st = some st1 ∧
      st1.sent = st.sent ++
        [(0x0b, 0x06), (0x09, 0xff), (0x0a, min brightness 15), (0x0c, 0x01)] ∧
      (0x0b, 0x07) ∉ [(0x0b, 0x06), (0x09, 0xff), (0x0a, min brightness 15), (0x0c, 0x01)] := by
  obtain ⟨st1, h1, e1⟩ := d.transmit_sent 0x0b 0x06 st
  obtain ⟨st2, h2, e2⟩ := d.transmit_sent 0x09 0xff st1
  obtain ⟨st3, h3, e3⟩ := d.transmit_sent 0x0a (min brightness 15) st2
  obtain ⟨st4, h4, e4⟩ := d.transmit_sent 0x0c 0x01 st3
  have hb : (if brightness > 15 then 15 else brightness) = min brightness 15 := by
    split <;> omega
  refine ⟨st4, ?_, ?_, ?_⟩
  · unfold MAX7219.init MAX7219.set_scan_limit MAX7219.use_decode_mode
      MAX7219.set_brightness MAX7219.set_shutdown
    simp only [hb]
    have hlim : ((if (if 7 < 1 then 1 else 7) > 8 then 8 else (if 7 < 1 then 1 else 7)) - 1) % 256
        = 0x06 := by decide
    rw [hlim, h1]
    simp only [if_true]
    rw [h2]
    simp only
    rw [h3]
    simp only [Bool.false_eq_true, if_false]
    exact h4
  · rw [e4, e3, e2, e1]
    simp
  · simp

end max7219

/-! ## Lemmas and theorems: `timers/timers.h` -/

namespace timers

theorem testBit_one_shl_mod (k j : Nat) (hj : j < 8) :
    ((1 <<< k) % 256).testBit j = decide (k = j) := by
  have h256 : (256 : Nat) = 2 ^ 8 := by norm_num
  rw [h256, Nat.testBit_mod_two_pow, avr.testBit_one_shl]
  simp [hj]

theorem testBit_two_shl_mod (k l j : Nat) (hj : j < 8) :
    (((1 <<< k) ||| (1 <<< l)) % 256).testBit j = (decide (k = j) || decide (l = j)) := by
  have h256 : (256 : Nat) = 2 ^ 8 := by norm_num
  rw [h256, Nat.testBit_mod_two_pow, Nat.testBit_or, avr.testBit_one_shl, avr.testBit_one_shl]
  simp [hj]

theorem testBit_three_shl_mod (k l m j : Nat) (hj : j < 8) :
    ((((1 <<< k) ||| (1 <<< l)) ||| (1 <<< m)) % 256).testBit j
      = ((decide (k = j) || decide (l = j)) || decide (m = j)) := by
  have h256 : (256 : Nat) = 2 ^ 8 := by norm_num
  rw [h256, Nat.testBit_mod_two_pow, Nat.testBit_or, Nat.testBit_or, avr.testBit_one_shl,
    avr.testBit_one_shl, avr.testBit_one_shl]
  simp [hj]

theorem two_shl_lt (k l : Nat) (hk : k < 8) (hl : l < 8) :
    (1 <<< k) ||| (1 <<< l) < 65536 := by
  have h1 := avr.one_shl_lt k hk
  have h2 := avr.one_shl_lt l hl
  have h : (1 <<< k) ||| (1 <<< l) < 2 ^ 8 := Nat.or_lt_two_pow (by simpa using h1) (by simpa using h2)
  norm_num at h
  omega

theorem three_shl_lt (k l m : Nat) (hk : k < 8) (hl : l < 8) (hm : m < 8) :
    ((1 <<< k) ||| (1 <<< l)) ||| (1 <<< m) < 65536 := by
  have h1 := avr.one_shl_lt k hk
  have h2 := avr.one_shl_lt l hl
  have h3 := avr.one_shl_lt m hm
  have h : ((1 <<< k) ||| (1 <<< l)) ||| (1 <<< m) < 2 ^ 8 :=
    Nat.or_lt_two_pow (Nat.or_lt_two_pow (by simpa using h1) (by simpa using h2))
      (by simpa using h3)
  norm_num at h
  omega

theorem one_shl_lt_int (k : Nat) (hk : k < 8) : 1 <<< k < 65536 := by
  have h1 := avr.one_shl_lt k hk
  omega

namespace timer2

theorem wgm_set_mode_normal (io : Io) (r : Regs) (h20 : io.WGM20 < 8) (h21 : io.WGM21 < 8)
    (h22 : io.WGM22 < 8) : wgm io (set_mode_normal io r) = (false, false, false) := by
  simp only [wgm, set_mode_normal]
  rw [avr.testBit_and_not_assign _ _ _ h22 (one_shl_lt_int _ h22),
    avr.testBit_and_not_assign _ _ _ h21 (two_shl_lt _ _ h20 h21),
    avr.testBit_and_not_assign _ _ _ h20 (two_shl_lt _ _ h20 h21)]
  simp only [Nat.testBit_or, avr.testBit_one_shl]
  simp

theorem wgm_set_mode_pwm_phase_correct (io : Io) (r : Regs) (h20 : io.WGM20 < 8)
    (h21 : io.WGM21 < 8) (h22 : io.WGM22 < 8) (hne : io.WGM20 ≠ io.WGM21) :
    wgm io (set_mode_pwm_phase_correct io r) = (false, false, true) := by
  simp only [wgm, set_mode_pwm_phase_correct]
  rw [avr.testBit_and_not_assign _ _ _ h22 (one_shl_lt_int _ h22),
    avr.testBit_and_not_assign _ _ _ h21 (one_shl_lt_int _ h21),
    avr.testBit_and_not_assign _ _ _ h20 (one_shl_lt_int _ h21),
    avr.testBit_or_assign _ _ _ h20]
  simp only [avr.testBit_one_shl]
  simp [hne, hne.symm]

theorem wgm_set_mode_ctc (io : Io) (r : Regs) (h20 : io.WGM20 < 8) (h21 : io.WGM21 < 8)
    (h22 : io.WGM22 < 8) (hne : io.WGM20 ≠ io.WGM21) :
    wgm io (set_mode_ctc io r) = (false, true, false) := by
  simp only [wgm, set_mode_ctc]
  rw [avr.testBit_and_not_assign _ _ _ h22 (one_shl_lt_int _ h22),
    avr.testBit_or_assign _ _ _ h21, avr.testBit_or_assign _ _ _ h20,
    avr.testBit_and_not_assign _ _ _ h20 (one_shl_lt_int _ h20)]
  simp only [avr.testBit_one_shl]
  simp [hne, hne.symm]

theorem wgm_set_mode_pwm_fast (io : Io) (r : Regs) (h20 : io.WGM20 < 8) (h21 : io.WGM21 < 8)
    (h22 : io.WGM22 < 8) : wgm io (set_mode_pwm_fast io r) = (false, true, true) := by
  simp only [wgm, set_mode_pwm_fast]
  rw [avr.testBit_and_not_assign _ _ _ h22 (one_shl_lt_int _ h22),
    avr.testBit_or_assign _ _ _ h21, avr.testBit_or_assign _ _ _ h20]
  simp only [Nat.testBit_or, avr.testBit_one_shl]
  simp

theorem wgm_set_mode_pwm_faster (io : Io) (r : Regs) (h20 : io.WGM20 < 8) (h21 : io.WGM21 < 8)
    (h22 : io.WGM22 < 8) : wgm io (set_mode_pwm_faster io r) = (true, true, true) := by
  simp only [wgm, set_mode_pwm_faster]
  rw [avr.testBit_or_assign _ _ _ h22,
    avr.testBit_or_assign _ _ _ h21, avr.testBit_or_assign _ _ _ h20]
  simp only [Nat.testBit_or, avr.testBit_one_shl]
  simp

/-- C13: with `WGM20` and `WGM21` distinct bit positions (all three inside the
8-bit registers), for any initial `TCCR2A`/`TCCR2B` the bits
`(WGM22, WGM21, WGM20)` are 000 after `set_mode_normal`, 001 after
`set_mode_pwm_phase_correct`, 010 after `set_mode_ctc`, 011 after
`set_mode_pwm_fast` and 111 after `set_mode_pwm_faster`; so a mode function
called after any other gives the same bits as called alone, and the five modes
give pairwise different bits. -/
theorem set_mode_determines_wgm (io : Io) (r : Regs) (h20 : io.WGM20 < 8) (h21 : io.WGM21 < 8)
    (h22 : io.WGM22 < 8) (hne : io.WGM20 ≠ io.WGM21) :
    wgm io (set_mode_normal io r) = (false, false, false) ∧
      wgm io (set_mode_pwm_phase_correct io r) = (false, false, true) ∧
      wgm io (set_mode_ctc io r) = (false, true, false) ∧
      wgm io (set_mode_pwm_fast io r) = (false, true, true) ∧
      wgm io (set_mode_pwm_faster io r) = (true, true, true) ∧
      (∀ f ∈ modes io, ∀ g ∈ modes io, wgm io (f (g r)) = wgm io (f r)) ∧
      ((modes io).map (fun f => wgm io (f r))).Nodup := by
  have hn := fun r => wgm_set_mode_normal io r h20 h21 h22
  have hp := fun r => wgm_set_mode_pwm_phase_correct io r h20 h21 h22 hne
  have hc := fun r => wgm_set_mode_ctc io r h20 h21 h22 hne
  have hf := fun r => wgm_set_mode_pwm_fast io r h20 h21 h22
  have hff := fun r => wgm_set_mode_pwm_faster io r h20 h21 h22
  refine ⟨hn r, hp r, hc r, hf r, hff r, ?_, ?_⟩
  · intro f hfm g _
    simp only [modes, List.mem_cons, List.mem_singleton, List.not_mem_nil, or_false] at hfm
    rcases hfm with rfl | rfl | rfl | rfl | rfl
    · rw [hn, hn]
    · rw [hp, hp]
    · rw [hc, hc]
    · rw [hf, hf]
    · rw [hff, hff]
  · simp only [modes, List.map_cons, List.map_nil, hn, hp, hc, hf, hff]
    decide

/-- Witness of C13: the ATmega328P bit positions, both registers all ones. -/
theorem set_mode_determines_wgm_witness :
    (Io.atmega328p.WGM20 < 8 ∧ Io.atmega328p.WGM21 < 8 ∧ Io.atmega328p.WGM22 < 8 ∧
      Io.atmega328p.WGM20 ≠ Io.atmega328p.WGM21) ∧
    (wgm Io.atmega328p (set_mode_normal Io.atmega328p ⟨0xff, 0xff⟩) = (false, false, false) ∧
      wgm Io.atmega328p (set_mode_pwm_phase_correct Io.atmega328p ⟨0xff, 0xff⟩)
        = (false, false, true) ∧
      wgm Io.atmega328p (set_mode_ctc Io.atmega328p ⟨0xff, 0xff⟩) = (false, true, false) ∧
      wgm Io.atmega328p (set_mode_pwm_fast Io.atmega328p ⟨0xff, 0xff⟩) = (false, true, true) ∧
      wgm Io.atmega328p (set_mode_pwm_faster Io.atmega328p ⟨0xff, 0xff⟩) = (true, true, true) ∧
      (∀ f ∈ modes Io.atmega328p, ∀ g ∈ modes Io.atmega328p,
        wgm Io.atmega328p (f (g ⟨0xff, 0xff⟩)) = wgm Io.atmega328p (f ⟨0xff, 0xff⟩)) ∧
      ((modes Io.atmega328p).map (fun f => wgm Io.atmega328p (f ⟨0xff, 0xff⟩))).Nodup) :=
  ⟨by decide,
    set_mode_determines_wgm Io.atmega328p ⟨0xff, 0xff⟩ (by decide) (by decide) (by decide)
      (by decide)⟩

theorem use_prescaler_testBit (io : Io) (p : Clock) (r : Regs) (h0 : io.CS20 < 8)
    (h1 : io.CS21 < 8) (h2 : io.CS22 < 8) (j : Nat) (hj : j < 8) :
    (use_prescaler io p r).TCCR2B.testBit j =
      ((r.TCCR2B.testBit j &&
          !((decide (io.CS20 = j) || decide (io.CS21 = j)) || decide (io.CS22 = j)))
        || (p.toByte io).testBit j) := by
  simp only [use_prescaler]
  rw [avr.testBit_or_assign _ _ _ hj,
    avr.testBit_and_not_assign _ _ _ hj (three_shl_lt _ _ _ h0 h1 h2)]
  simp only [Nat.testBit_or, avr.testBit_one_shl]

theorem use_outputs_testBit (io : Io) (a : output_a) (b : output_b) (r : Regs)
    (ha0 : io.COM2A0 < 8) (ha1 : io.COM2A1 < 8) (hb0 : io.COM2B0 < 8) (hb1 : io.COM2B1 < 8)
    (j : Nat) (hj : j < 8) :
    (use_outputs io a b r).TCCR2A.testBit j =
      ((((r.TCCR2A.testBit j && !(decide (io.COM2A0 = j) || decide (io.COM2A1 = j)))
            || (a.toByte io).testBit j)
          && !(decide (io.COM2B0 = j) || decide (io.COM2B1 = j)))
        || (b.toByte io).testBit j) := by
  simp only [use_outputs]
  rw [avr.testBit_or_assign _ _ _ hj,
    avr.testBit_and_not_assign _ _ _ hj (two_shl_lt _ _ hb0 hb1),
    avr.testBit_or_assign _ _ _ hj,
    avr.testBit_and_not_assign _ _ _ hj (two_shl_lt _ _ ha0 ha1)]
  simp only [Nat.testBit_or, avr.testBit_one_shl]

/-- C14: with the clock-select positions pairwise distinct and the four
compare-output positions pairwise distinct (all inside the 8-bit registers),
for every initial `TCCR2A`/`TCCR2B`: after `use_prescaler(p)` the bits
`(CS22, CS21, CS20)` of `TCCR2B` are those of `p`, every other bit of `TCCR2B`
is unchanged and `TCCR2A` is unchanged; after `use_outputs(a, b)` the bits
`(COM2A1, COM2A0)` of `TCCR2A` are those of `a`, `(COM2B1, COM2B0)` those of
`b`, every other bit of `TCCR2A` is unchanged and `TCCR2B` is unchanged; in
particular the WGM bits are unchanged when their positions are none of the
compare-output positions. -/
theorem helpers_touch_own_field (io : Io) (r : Regs) (p : Clock) (a : output_a) (b : output_b)
    (hcs : [io.CS20, io.CS21, io.CS22].Nodup)
    (hcom : [io.COM2A0, io.COM2A1, io.COM2B0, io.COM2B1].Nodup)
    (h8 : ∀ k ∈ [io.CS20, io.CS21, io.CS22, io.COM2A0, io.COM2A1, io.COM2B0, io.COM2B1],
      k < 8) :
    ((use_prescaler io p r).TCCR2B.testBit io.CS22,
        (use_prescaler io p r).TCCR2B.testBit io.CS21,
        (use_prescaler io p r).TCCR2B.testBit io.CS20) = p.select ∧
      (∀ j, j < 8 → j ∉ [io.CS20, io.CS21, io.CS22] →
        (use_prescaler io p r).TCCR2B.testBit j = r.TCCR2B.testBit j) ∧
      (use_prescaler io p r).TCCR2A = r.TCCR2A ∧
      ((use_outputs io a b r).TCCR2A.testBit io.COM2A1,
        (use_outputs io a b r).TCCR2A.testBit io.COM2A0) = a.select ∧
      ((use_outputs io a b r).TCCR2A.testBit io.COM2B1,
        (use_outputs io a b r).TCCR2A.testBit io.COM2B0) = b.select ∧
      (∀ j, j < 8 → j ∉ [io.COM2A0, io.COM2A1, io.COM2B0, io.COM2B1] →
        (use_outputs io a b r).TCCR2A.testBit j = r.TCCR2A.testBit j) ∧
      (use_outputs io a b r).TCCR2B = r.TCCR2B ∧
      (io.WGM20 < 8 → io.WGM21 < 8 →
        io.WGM20 ∉ [io.COM2A0, io.COM2A1, io.COM2B0, io.COM2B1] →
        io.WGM21 ∉ [io.COM2A0, io.COM2A1, io.COM2B0, io.COM2B1] →
        wgm io (use_outputs io a b r) = wgm io r) := by
  have h0 : io.CS20 < 8 := h8 _ (by simp)
  have h1 : io.CS21 < 8 := h8 _ (by simp)
  have h2 : io.CS22 < 8 := h8 _ (by simp)
  have ha0 : io.COM2A0 < 8 := h8 _ (by simp)
  have ha1 : io.COM2A1 < 8 := h8 _ (by simp)
  have hb0 : io.COM2B0 < 8 := h8 _ (by simp)
  have hb1 : io.COM2B1 < 8 := h8 _ (by simp)
  simp only [List.nodup_cons, List.mem_cons, List.mem_singleton, List.not_mem_nil, or_false,
    not_or, List.nodup_nil, and_true, not_false_eq_true] at hcs hcom
  obtain ⟨⟨c01, c02⟩, c12⟩ := hcs
  obtain ⟨⟨m01, m02, m03⟩, ⟨m12, m13⟩, m23⟩ := hcom
  have hframe : ∀ j, j < 8 → j ∉ [io.COM2A0, io.COM2A1, io.COM2B0, io.COM2B1] →
      (use_outputs io a b r).TCCR2A.testBit j = r.TCCR2A.testBit j := by
    intro j hj hnot
    simp only [List.mem_cons, List.mem_singleton, List.not_mem_nil, or_false, not_or] at hnot
    obtain ⟨n0, n1, n2, n3⟩ := hnot
    rw [use_outputs_testBit io a b r ha0 ha1 hb0 hb1 _ hj]
    cases a <;> cases b <;>
      simp [output_a.toByte, output_b.toByte, testBit_one_shl_mod, testBit_two_shl_mod, hj,
        Ne.symm n0, Ne.symm n1, Ne.symm n2, Ne.symm n3]
  refine ⟨?_, ?_, rfl, ?_, ?_, hframe, rfl, ?_⟩
  · rw [use_prescaler_testBit io p r h0 h1 h2 _ h2, use_prescaler_testBit io p r h0 h1 h2 _ h1,
      use_prescaler_testBit io p r h0 h1 h2 _ h0]
    cases p <;>
      simp [Clock.toByte, Clock.select, testBit_one_shl_mod, testBit_two_shl_mod,
        testBit_three_shl_mod, h0, h1, h2, c01, c02, c12, Ne.symm c01, Ne.symm c02, Ne.symm c12]
  · intro j hj hnot
    simp only [List.mem_cons, List.mem_singleton, List.not_mem_nil, or_false, not_or] at hnot
    obtain ⟨n0, n1, n2⟩ := hnot
    rw [use_prescaler_testBit io p r h0 h1 h2 _ hj]
    cases p <;>
      simp [Clock.toByte, testBit_one_shl_mod, testBit_two_shl_mod,
        testBit_three_shl_mod, hj, Ne.symm n0, Ne.symm n1, Ne.symm n2]
  · rw [use_outputs_testBit io a b r ha0 ha1 hb0 hb1 _ ha1,
      use_outputs_testBit io a b r ha0 ha1 hb0 hb1 _ ha0]
    cases a <;> cases b <;>
      simp [output_a.toByte, output_b.toByte, output_a.select, testBit_one_shl_mod,
        testBit_two_shl_mod, ha0, ha1, m01, m02, m03, m12, m13, m23, Ne.symm m01, Ne.symm m02,
        Ne.symm m03, Ne.symm m12, Ne.symm m13, Ne.symm m23]
  · rw [use_outputs_testBit io a b r ha0 ha1 hb0 hb1 _ hb1,
      use_outputs_testBit io a b r ha0 ha1 hb0 hb1 _ hb0]
    cases a <;> cases b <;>
      simp [output_a.toByte, output_b.toByte, output_b.select, testBit_one_shl_mod,
        testBit_two_shl_mod, hb0, hb1, m01, m02, m03, m12, m13, m23, Ne.symm m01, Ne.symm m02,
        Ne.symm m03, Ne.symm m12, Ne.symm m13, Ne.symm m23]
  · intro hw0 hw1 hn0 hn1
    have hB : (use_outputs io a b r).TCCR2B = r.TCCR2B := rfl
    simp only [wgm, hB, hframe _ hw0 hn0, hframe _ hw1 hn1]

/-- Witness of C14: the ATmega328P bit positions, WGM bits set beforehand,
prescaler 64, output A toggling, output B non-inverting. -/
theorem helpers_touch_own_field_witness :
    ([Io.atmega328p.CS20, Io.atmega328p.CS21, Io.atmega328p.CS22].Nodup ∧
      [Io.atmega328p.COM2A0, Io.atmega328p.COM2A1, Io.atmega328p.COM2B0,
        Io.atmega328p.COM2B1].Nodup ∧
      ∀ k ∈ [Io.atmega328p.CS20, Io.atmega328p.CS21, Io.atmega328p.CS22,
        Io.atmega328p.COM2A0, Io.atmega328p.COM2A1, Io.atmega328p.COM2B0,
        Io.atmega328p.COM2B1], k < 8) ∧
    (use_prescaler Io.atmega328p Clock.Divide_by_64 ⟨0x03, 0x08⟩).TCCR2B.testBit 2 = true ∧
    (use_outputs Io.atmega328p output_a.toggle output_b.non_inverting ⟨0x03, 0x08⟩).TCCR2B
      = 0x08 ∧
    wgm Io.atmega328p
        (use_outputs Io.atmega328p output_a.toggle output_b.non_inverting ⟨0x03, 0x08⟩)
      = wgm Io.atmega328p ⟨0x03, 0x08⟩ :=
  ⟨⟨by decide, by decide, by decide⟩,
    congrArg Prod.fst
      (helpers_touch_own_field Io.atmega328p ⟨0x03, 0x08⟩ Clock.Divide_by_64 output_a.toggle
        output_b.non_inverting (by decide) (by decide) (by decide)).1,
    (helpers_touch_own_field Io.atmega328p ⟨0x03, 0x08⟩ Clock.Divide_by_64 output_a.toggle
      output_b.non_inverting (by decide) (by decide) (by decide)).2.2.2.2.2.2.1,
    (helpers_touch_own_field Io.atmega328p ⟨0x03, 0x08⟩ Clock.Divide_by_64 output_a.toggle
      output_b.non_inverting (by decide) (by decide) (by decide)).2.2.2.2.2.2.2
      (by decide) (by decide) (by decide) (by decide)⟩

end timer2

end timers
